import Mathlib

/-!
Verification of the MoltyNano peer-synchronization and data-integrity core.

The definitions below are a shallow embedding of the TypeScript source:
`src/lib/db.ts` (store, validators, merge), `src/lib/wallet.ts` (signature
gates), `src/lib/ipfs.ts` (content addressing), `src/lib/p2p.ts` (sync
protocol and message dedup) and the store-context message handler.

JavaScript numbers that can be `NaN`/`±Infinity` are modelled by `JSNum`;
dynamic (`unknown`) values by `JSVal`.  External cryptographic primitives
(`nanoTools.verify`, `addressToPublicKey`, SHA-256) are parameters of the
definitions that consume them, as they are third-party libraries.
Dexie tables are modelled as lists keyed by the primary-key field `id`;
`put` replaces the record with the same primary key or appends,
`update(id, ...)` modifies the record with that primary key in place, and
`where(...).first()` is first-match lookup (tables reachable by the program
hold at most one record per lookup key, so the scan order is immaterial).
-/

namespace MoltyNano

/-- A JavaScript `number`: either a finite (integral) value or one of the
non-finite values `NaN`, `Infinity`, `-Infinity`. -/
inductive JSNum where
  | nan
  | posInf
  | negInf
  | fin (v : Int)
deriving DecidableEq

/-- db.ts: `MAX_TIMESTAMP_DRIFT = 5 * 60 * 1000`. -/
def MAX_TIMESTAMP_DRIFT : Int := 5 * 60 * 1000

/-- db.ts `isReasonableTimestamp`: rejects non-numbers/NaN/non-finite values,
negative values, and values more than `MAX_TIMESTAMP_DRIFT` past `now`. -/
def isReasonableTimestamp (now : Int) (ts : JSNum) : Bool :=
  match ts with
  | .nan => false
  | .posInf => false
  | .negInf => false
  | .fin v => if v < 0 then false else if now + MAX_TIMESTAMP_DRIFT < v then false else true

/-- A dynamically-typed JavaScript value (`unknown` in the source). -/
inductive JSVal where
  | jnull
  | undefined
  | bool (b : Bool)
  | num (n : JSNum)
  | str (s : String)
  | arr (elems : List JSVal)
  | obj (fields : List (String × JSVal))

/-- Property lookup on an object's field list; missing keys give `undefined`. -/
def lookupField : List (String × JSVal) → String → JSVal
  | [], _ => .undefined
  | (k, v) :: rest, key => if k = key then v else lookupField rest key

/-- JavaScript property access `o.key`: `undefined` on non-objects. -/
def JSVal.getField : JSVal → String → JSVal
  | .obj fields, key => lookupField fields key
  | _, _ => .undefined

/-- JavaScript truthiness (`!!x`). -/
def JSVal.truthy : JSVal → Bool
  | .jnull => false
  | .undefined => false
  | .bool b => b
  | .num .nan => false
  | .num .posInf => true
  | .num .negInf => true
  | .num (.fin v) => decide (v ≠ 0)
  | .str s => decide (s ≠ "")
  | .arr _ => true
  | .obj _ => true

/-- `typeof x === 'object'` (true for `null`, arrays and plain objects). -/
def JSVal.isObjectType : JSVal → Bool
  | .jnull => true
  | .arr _ => true
  | .obj _ => true
  | _ => false

/-- `typeof x === 'string'`. -/
def JSVal.isStringType : JSVal → Bool
  | .str _ => true
  | _ => false

/-- `typeof x === 'number'`. -/
def JSVal.isNumberType : JSVal → Bool
  | .num _ => true
  | _ => false

/-- `Array.isArray(x)`. -/
def JSVal.isArrayType : JSVal → Bool
  | .arr _ => true
  | _ => false

/-- The string content of a value already known to be a string. -/
def JSVal.strVal : JSVal → String
  | .str s => s
  | _ => ""

/-- The numeric content of a value already known to be a number. -/
def JSVal.numVal : JSVal → JSNum
  | .num n => n
  | _ => .nan

/-- db.ts content size limits. -/
def MAX_TITLE_LENGTH : Nat := 300

def MAX_BODY_LENGTH : Nat := 40000

def MAX_COMMENT_LENGTH : Nat := 10000

def MAX_NAME_LENGTH : Nat := 50

def MAX_DESCRIPTION_LENGTH : Nat := 500

/-- db.ts `isValidCommunity`. -/
def isValidCommunity (now : Int) (c : JSVal) : Bool :=
  c.truthy && (c.getField "id").isStringType && (c.getField "name").isStringType &&
  (c.getField "description").isStringType && (c.getField "creator").isStringType &&
  (c.getField "createdAt").isNumberType &&
  decide ((c.getField "name").strVal.length ≤ MAX_NAME_LENGTH) &&
  decide ((c.getField "description").strVal.length ≤ MAX_DESCRIPTION_LENGTH) &&
  decide ((c.getField "id").strVal.length ≤ 100) &&
  isReasonableTimestamp now (c.getField "createdAt").numVal

/-- db.ts `isValidPost`. -/
def isValidPost (now : Int) (p : JSVal) : Bool :=
  p.truthy && (p.getField "id").isStringType && (p.getField "title").isStringType &&
  (p.getField "body").isStringType && (p.getField "author").isStringType &&
  (p.getField "communityId").isStringType && (p.getField "createdAt").isNumberType &&
  decide ((p.getField "title").strVal.length ≤ MAX_TITLE_LENGTH) &&
  decide ((p.getField "body").strVal.length ≤ MAX_BODY_LENGTH) &&
  decide ((p.getField "id").strVal.length ≤ 100) &&
  isReasonableTimestamp now (p.getField "createdAt").numVal

/-- db.ts `isValidComment`. -/
def isValidComment (now : Int) (c : JSVal) : Bool :=
  c.truthy && (c.getField "id").isStringType && (c.getField "body").isStringType &&
  (c.getField "author").isStringType && (c.getField "postId").isStringType &&
  (c.getField "createdAt").isNumberType &&
  decide ((c.getField "body").strVal.length ≤ MAX_COMMENT_LENGTH) &&
  decide ((c.getField "id").strVal.length ≤ 100) &&
  isReasonableTimestamp now (c.getField "createdAt").numVal

/-- `o.value === 1 || o.value === -1` on a dynamic value. -/
def isVoteValue (x : JSVal) : Bool :=
  match x with
  | .num (.fin v) => decide (v = 1) || decide (v = -1)
  | _ => false

/-- db.ts `isValidVote`. -/
def isValidVote (now : Int) (v : JSVal) : Bool :=
  v.truthy && (v.getField "id").isStringType && (v.getField "targetId").isStringType &&
  (v.getField "voter").isStringType && isVoteValue (v.getField "value") &&
  (v.getField "createdAt").isNumberType &&
  ((v.getField "targetType").isStringType &&
    (decide ((v.getField "targetType").strVal = "post") ||
     decide ((v.getField "targetType").strVal = "comment"))) &&
  decide ((v.getField "id").strVal.length ≤ 100) &&
  isReasonableTimestamp now (v.getField "createdAt").numVal

/-- db.ts `isValidTip` (the `^[0-9]+$` regex is a nonempty all-digit check). -/
def isValidTip (now : Int) (t : JSVal) : Bool :=
  t.truthy && (t.getField "id").isStringType && (t.getField "from").isStringType &&
  (t.getField "to").isStringType && (t.getField "amountRaw").isStringType &&
  (t.getField "targetId").isStringType && (t.getField "createdAt").isNumberType &&
  (decide ((t.getField "amountRaw").strVal ≠ "") &&
    (t.getField "amountRaw").strVal.all Char.isDigit) &&
  decide ((t.getField "id").strVal.length ≤ 100) &&
  decide ((t.getField "amountRaw").strVal.length ≤ 40) &&
  isReasonableTimestamp now (t.getField "createdAt").numVal

/-- The five filtered record arrays returned by `validateSyncData`. -/
structure RawSyncData where
  communities : List JSVal
  posts : List JSVal
  comments : List JSVal
  votes : List JSVal
  tips : List JSVal

/-- db.ts `validateSyncData`: total on arbitrary dynamic input; non-objects
and falsy values give five empty arrays, missing/non-array fields give an
empty array, and array fields are filtered by the per-entity validator. -/
def validateSyncData (now : Int) (data : JSVal) : RawSyncData :=
  if !data.truthy || !data.isObjectType then ⟨[], [], [], [], []⟩
  else
    { communities :=
        match data.getField "communities" with
        | .arr l => l.filter (isValidCommunity now)
        | _ => []
      posts :=
        match data.getField "posts" with
        | .arr l => l.filter (isValidPost now)
        | _ => []
      comments :=
        match data.getField "comments" with
        | .arr l => l.filter (isValidComment now)
        | _ => []
      votes :=
        match data.getField "votes" with
        | .arr l => l.filter (isValidVote now)
        | _ => []
      tips :=
        match data.getField "tips" with
        | .arr l => l.filter (isValidTip now)
        | _ => [] }

/-! ### JSON serialization (ipfs.ts `hashContent`) and content addressing -/

/-- One lowercase hex digit. -/
def hexDigit (n : Nat) : Char :=
  if n < 10 then Char.ofNat (48 + n) else Char.ofNat (87 + n)

/-- Two-hex-digit rendering of a byte. -/
def hexPair (n : Nat) : String :=
  String.singleton (hexDigit (n / 16)) ++ String.singleton (hexDigit (n % 16))

/-- Hex encoding of a string's UTF-8 bytes (wallet.ts message encoding). -/
def hexOfString (s : String) : String :=
  String.join (s.toUTF8.toList.map (fun b => hexPair b.toNat))

/-- JSON escaping of a single character as done by `JSON.stringify`. -/
def escapeChar (c : Char) : String :=
  if c = '"' then "\\\""
  else if c = '\\' then "\\\\"
  else if c = '\n' then "\\n"
  else if c = '\r' then "\\r"
  else if c = '\t' then "\\t"
  else if c.toNat < 32 then "\\u00" ++ hexPair c.toNat
  else String.singleton c

/-- JSON escaping of a string body. -/
def jsonEscape (s : String) : String :=
  String.join (s.toList.map escapeChar)

/-- A JSON string literal. -/
def jsonStr (s : String) : String :=
  "\"" ++ jsonEscape s ++ "\""

/-- A JSON-serializable field value of the flat record objects. -/
inductive JLit where
  | s (v : String)
  | n (v : Int)
  | nullv
deriving DecidableEq

/-- Rendering of a field value as `JSON.stringify` does. -/
def JLit.render : JLit → String
  | .s v => jsonStr v
  | .n v => toString v
  | .nullv => "null"

/-- One `"key":value` member. -/
def renderField (f : String × JLit) : String :=
  jsonStr f.1 ++ ":" ++ JLit.render f.2

/-- `JSON.stringify` of a flat object with the given field order. -/
def stringifyFields (fields : List (String × JLit)) : String :=
  "\x7b" ++ String.intercalate "," (fields.map renderField) ++ "\x7d"

/-- Lexicographic comparison of character lists by code point, the order
`Array.prototype.sort()` uses on the key strings. -/
def charsLe : List Char → List Char → Bool
  | [], _ => true
  | _ :: _, [] => false
  | a :: as, b :: bs =>
    if a.toNat < b.toNat then true
    else if b.toNat < a.toNat then false
    else charsLe as bs

/-- Lexicographic string comparison. -/
def strLe (a b : String) : Bool := charsLe a.data b.data

/-- Insertion step of the key sort. -/
def insertByKey (f : String × JLit) : List (String × JLit) → List (String × JLit)
  | [] => [f]
  | g :: rest => if strLe f.1 g.1 then f :: g :: rest else g :: insertByKey f rest

/-- Sorting an object's fields by key (`Object.keys(data).sort()`). -/
def sortByKey : List (String × JLit) → List (String × JLit)
  | [] => []
  | f :: rest => insertByKey f (sortByKey rest)

/-- ipfs.ts `hashContent`: canonicalize by sorting keys, serialize, hash the
UTF-8 bytes with SHA-256 (the abstract `sha`, producing the hex digest), and
prefix with `bafy`. -/
def hashContent (sha : String → String) (fields : List (String × JLit)) : String :=
  "bafy" ++ sha (stringifyFields (sortByKey fields))

/-- ipfs.ts `verifyCID`: an empty claimed CID verifies trivially; otherwise
the recomputed content hash must equal the claimed one. -/
def verifyCID (sha : String → String) (fields : List (String × JLit)) (claimedCid : String) : Bool :=
  if claimedCid = "" then true
  else decide (hashContent sha fields = claimedCid)

/-! ### Typed records (types.ts) -/

/-- types.ts `Community`. -/
structure Community where
  id : String
  name : String
  description : String
  creator : String
  createdAt : Int
  cid : String
  signature : String
deriving DecidableEq

/-- types.ts `Post`. -/
structure Post where
  id : String
  title : String
  body : String
  author : String
  authorName : String
  communityId : String
  createdAt : Int
  cid : String
  signature : String
deriving DecidableEq

/-- types.ts `Comment` (`parentId` is nullable). -/
structure Comment where
  id : String
  body : String
  author : String
  authorName : String
  postId : String
  parentId : Option String
  createdAt : Int
  cid : String
  signature : String
deriving DecidableEq

/-- types.ts `Vote` (`value` is the number 1 or -1, `targetType` a string). -/
structure Vote where
  id : String
  targetId : String
  targetType : String
  voter : String
  value : Int
  createdAt : Int
  signature : String
deriving DecidableEq

/-- types.ts `Tip`. -/
structure Tip where
  id : String
  «from» : String
  «to» : String
  amountRaw : String
  blockHash : String
  targetId : String
  targetType : String
  createdAt : Int
  signature : String
deriving DecidableEq

/-- The JSON field list of a `Community` object. -/
def communityFields (c : Community) : List (String × JLit) :=
  [("id", .s c.id), ("name", .s c.name), ("description", .s c.description),
   ("creator", .s c.creator), ("createdAt", .n c.createdAt), ("cid", .s c.cid),
   ("signature", .s c.signature)]

/-- The JSON field list of a `Post` object. -/
def postFields (p : Post) : List (String × JLit) :=
  [("id", .s p.id), ("title", .s p.title), ("body", .s p.body),
   ("communityId", .s p.communityId), ("createdAt", .n p.createdAt),
   ("author", .s p.author), ("authorName", .s p.authorName),
   ("signature", .s p.signature), ("cid", .s p.cid)]

/-- The JSON field list of a `Comment` object. -/
def commentFields (c : Comment) : List (String × JLit) :=
  [("id", .s c.id), ("body", .s c.body), ("postId", .s c.postId),
   ("parentId", match c.parentId with | none => JLit.nullv | some s => JLit.s s),
   ("createdAt", .n c.createdAt), ("author", .s c.author),
   ("authorName", .s c.authorName), ("signature", .s c.signature), ("cid", .s c.cid)]

/-! ### Signature gates (wallet.ts) -/

/-- wallet.ts `verifySignature`: the external `nanoTools.verify` (abstract
total parameter `verify`, its try/catch absorbed) applied to the public key,
the signature and the hex-encoded UTF-8 bytes of the message. -/
def verifySignature (verify : String → String → String → Bool)
    (publicKey message signature : String) : Bool :=
  verify publicKey signature (hexOfString message)

/-- wallet.ts `verifyPostSignature` canonical payload
`{id, title, body, communityId, createdAt}`. -/
def postSigPayload (p : Post) : String :=
  stringifyFields [("id", .s p.id), ("title", .s p.title), ("body", .s p.body),
    ("communityId", .s p.communityId), ("createdAt", .n p.createdAt)]

/-- wallet.ts `verifyCommentSignature` canonical payload. -/
def commentSigPayload (c : Comment) : String :=
  stringifyFields [("id", .s c.id), ("body", .s c.body), ("postId", .s c.postId),
    ("parentId", match c.parentId with | none => JLit.nullv | some s => JLit.s s),
    ("createdAt", .n c.createdAt)]

/-- wallet.ts `verifyCommunitySignature` canonical payload. -/
def communitySigPayload (c : Community) : String :=
  stringifyFields [("id", .s c.id), ("name", .s c.name),
    ("description", .s c.description), ("createdAt", .n c.createdAt)]

/-- wallet.ts `verifyVoteSignature` canonical payload. -/
def voteSigPayload (v : Vote) : String :=
  stringifyFields [("id", .s v.id), ("targetId", .s v.targetId),
    ("targetType", .s v.targetType), ("value", .n v.value),
    ("createdAt", .n v.createdAt)]

/-- wallet.ts `verifyTipSignature` canonical payload. -/
def tipSigPayload (t : Tip) : String :=
  stringifyFields [("id", .s t.id), ("from", .s t.«from»), ("to", .s t.«to»),
    ("amountRaw", .s t.amountRaw), ("blockHash", .s t.blockHash),
    ("targetId", .s t.targetId), ("targetType", .s t.targetType),
    ("createdAt", .n t.createdAt)]

/-- wallet.ts `verifyPostSignature`: `"anonymous"` always passes; otherwise a
non-empty signature must verify against the key derived from the author's
address (`addressToPublicKey`, `none` on malformed addresses). -/
def verifyPostSignature (verify : String → String → String → Bool)
    (addressToPublicKey : String → Option String) (p : Post) : Bool :=
  if p.author = "anonymous" then true
  else if p.signature = "" then false
  else
    match addressToPublicKey p.author with
    | none => false
    | some pub => verifySignature verify pub (postSigPayload p) p.signature

/-- wallet.ts `verifyCommentSignature`. -/
def verifyCommentSignature (verify : String → String → String → Bool)
    (addressToPublicKey : String → Option String) (c : Comment) : Bool :=
  if c.author = "anonymous" then true
  else if c.signature = "" then false
  else
    match addressToPublicKey c.author with
    | none => false
    | some pub => verifySignature verify pub (commentSigPayload c) c.signature

/-- wallet.ts `verifyCommunitySignature`. -/
def verifyCommunitySignature (verify : String → String → String → Bool)
    (addressToPublicKey : String → Option String) (c : Community) : Bool :=
  if c.creator = "anonymous" then true
  else if c.signature = "" then false
  else
    match addressToPublicKey c.creator with
    | none => false
    | some pub => verifySignature verify pub (communitySigPayload c) c.signature

/-- wallet.ts `verifyVoteSignature`. -/
def verifyVoteSignature (verify : String → String → String → Bool)
    (addressToPublicKey : String → Option String) (v : Vote) : Bool :=
  if v.voter = "anonymous" then true
  else if v.signature = "" then false
  else
    match addressToPublicKey v.voter with
    | none => false
    | some pub => verifySignature verify pub (voteSigPayload v) v.signature

/-- wallet.ts `verifyTipSignature`. -/
def verifyTipSignature (verify : String → String → String → Bool)
    (addressToPublicKey : String → Option String) (t : Tip) : Bool :=
  if t.«from» = "anonymous" then true
  else if t.signature = "" then false
  else
    match addressToPublicKey t.«from» with
    | none => false
    | some pub => verifySignature verify pub (tipSigPayload t) t.signature

/-! ### The replicated store (db.ts) -/

/-- The five Dexie tables, each a list keyed by the primary key `id`. -/
structure Store where
  communities : List Community
  posts : List Post
  comments : List Comment
  votes : List Vote
  tips : List Tip
deriving DecidableEq

/-- Dexie `put`: replace the record with the same primary key, else append. -/
def putByKey {α : Type} (getId : α → String) (tbl : List α) (x : α) : List α :=
  if tbl.any (fun e => decide (getId e = getId x)) then
    tbl.map (fun e => if getId e = getId x then x else e)
  else tbl ++ [x]

/-- db.ts `upsertCommunity`: insert-if-absent by `id`, with `verifyCID` over
the record with `cid` and `signature` blanked when a `cid` is present. -/
def upsertCommunity (sha : String → String) (s : Store) (c : Community)
    (skipCIDCheck : Bool) : Store × Bool :=
  match s.communities.find? (fun e => decide (e.id = c.id)) with
  | some _ => (s, false)
  | none =>
    if !skipCIDCheck && decide (c.cid ≠ "") then
      if verifyCID sha (communityFields { c with cid := "", signature := "" }) c.cid then
        ({ s with communities := putByKey Community.id s.communities c }, true)
      else (s, false)
    else ({ s with communities := putByKey Community.id s.communities c }, true)

/-- db.ts `upsertPost`: insert-if-absent by `id`; the CID is recomputed over
the record with only `cid` blanked (the signature is part of the hash). -/
def upsertPost (sha : String → String) (s : Store) (p : Post)
    (skipCIDCheck : Bool) : Store × Bool :=
  match s.posts.find? (fun e => decide (e.id = p.id)) with
  | some _ => (s, false)
  | none =>
    if !skipCIDCheck && decide (p.cid ≠ "") then
      if verifyCID sha (postFields { p with cid := "" }) p.cid then
        ({ s with posts := putByKey Post.id s.posts p }, true)
      else (s, false)
    else ({ s with posts := putByKey Post.id s.posts p }, true)

/-- db.ts `upsertComment`: like `upsertPost` (only `cid` blanked). -/
def upsertComment (sha : String → String) (s : Store) (c : Comment)
    (skipCIDCheck : Bool) : Store × Bool :=
  match s.comments.find? (fun e => decide (e.id = c.id)) with
  | some _ => (s, false)
  | none =>
    if !skipCIDCheck && decide (c.cid ≠ "") then
      if verifyCID sha (commentFields { c with cid := "" }) c.cid then
        ({ s with comments := putByKey Comment.id s.comments c }, true)
      else (s, false)
    else ({ s with comments := putByKey Comment.id s.comments c }, true)

/-- Dexie `update(existing.id, {value, createdAt, signature})`. -/
def updateVoteById (votes : List Vote) (vid : String) (v : Vote) : List Vote :=
  votes.map (fun e =>
    if e.id = vid then
      { e with value := v.value, createdAt := v.createdAt, signature := v.signature }
    else e)

/-- db.ts `upsertVote`: LWW on the compound key `(targetId, voter)`; an
incoming vote with `createdAt` greater or equal to the stored one replaces
`value`/`createdAt`/`signature` in place; always returns `true`. -/
def upsertVote (s : Store) (v : Vote) : Store × Bool :=
  match s.votes.find? (fun e => decide (e.targetId = v.targetId) && decide (e.voter = v.voter)) with
  | some existing =>
    if existing.createdAt ≤ v.createdAt then
      ({ s with votes := updateVoteById s.votes existing.id v }, true)
    else (s, true)
  | none => ({ s with votes := putByKey Vote.id s.votes v }, true)

/-- db.ts `upsertTip`: plain insert-if-absent by `id`, no CID check. -/
def upsertTip (s : Store) (t : Tip) : Store × Bool :=
  match s.tips.find? (fun e => decide (e.id = t.id)) with
  | some _ => (s, false)
  | none => ({ s with tips := putByKey Tip.id s.tips t }, true)

/-! ### Sync data and the bulk merge (db.ts) -/

/-- types.ts `SyncData`: the `SYNC_RESPONSE` payload. -/
structure SyncData where
  communities : List Community
  posts : List Post
  comments : List Comment
  votes : List Vote
  tips : List Tip
deriving DecidableEq

/-- db.ts `verifySyncSignatures`: filter every table by its signature gate. -/
def verifySyncSignatures (verify : String → String → String → Bool)
    (addressToPublicKey : String → Option String) (d : SyncData) : SyncData :=
  { communities := d.communities.filter (verifyCommunitySignature verify addressToPublicKey)
    posts := d.posts.filter (verifyPostSignature verify addressToPublicKey)
    comments := d.comments.filter (verifyCommentSignature verify addressToPublicKey)
    votes := d.votes.filter (verifyVoteSignature verify addressToPublicKey)
    tips := d.tips.filter (verifyTipSignature verify addressToPublicKey) }

/-- db.ts `mergeData` bulk path for one table: collect existing ids, keep only
batch records with new ids, and `bulkPut` them if any. -/
def bulkInsertNew {α : Type} (getId : α → String) (tbl : List α) (batch : List α) : List α :=
  let existingIds := tbl.map getId
  let newItems := batch.filter (fun x => !existingIds.contains (getId x))
  if 0 < newItems.length then newItems.foldl (putByKey getId) tbl else tbl

/-- db.ts `mergeData` vote loop body: LWW update of the first compound-key
match, else `put`. -/
def applyVote (votes : List Vote) (v : Vote) : List Vote :=
  match votes.find? (fun e => decide (e.targetId = v.targetId) && decide (e.voter = v.voter)) with
  | some existing =>
    if existing.createdAt ≤ v.createdAt then updateVoteById votes existing.id v else votes
  | none => putByKey Vote.id votes v

/-- db.ts `mergeData`: verify signatures, then bulk insert-if-absent for
communities/posts/comments/tips and the LWW loop for votes. -/
def mergeData (verify : String → String → String → Bool)
    (addressToPublicKey : String → Option String) (s : Store) (d : SyncData) : Store :=
  let verified := verifySyncSignatures verify addressToPublicKey d
  { communities := bulkInsertNew Community.id s.communities verified.communities
    posts := bulkInsertNew Post.id s.posts verified.posts
    comments := bulkInsertNew Comment.id s.comments verified.comments
    votes := verified.votes.foldl applyVote s.votes
    tips := bulkInsertNew Tip.id s.tips verified.tips }

/-- `mergeData` applied `n` times with the same payload. -/
def mergeN (verify : String → String → String → Bool)
    (addressToPublicKey : String → Option String) (d : SyncData) : Nat → Store → Store
  | 0, s => s
  | n + 1, s => mergeN verify addressToPublicKey d n (mergeData verify addressToPublicKey s d)

/-! ### Sync request handling (db.ts `getAllData`/`getDataSince`, p2p.ts) -/

/-- db.ts `getAllData`: the full snapshot of all five tables. -/
def getAllData (s : Store) : SyncData :=
  ⟨s.communities, s.posts, s.comments, s.votes, s.tips⟩

/-- db.ts `getDataSince`: records with `createdAt` strictly above `since`. -/
def getDataSince (s : Store) (since : Int) : SyncData :=
  { communities := s.communities.filter (fun c => decide (since < c.createdAt))
    posts := s.posts.filter (fun p => decide (since < p.createdAt))
    comments := s.comments.filter (fun c => decide (since < c.createdAt))
    votes := s.votes.filter (fun v => decide (since < v.createdAt))
    tips := s.tips.filter (fun t => decide (since < t.createdAt)) }

/-- p2p.ts `handleMessage` for `SYNC_REQUEST`: `msg.since ? getDataSince(...)
: getAllData()` — a JavaScript truthiness test, so an absent `since` or the
falsy value `0` yields the full snapshot. -/
def handleSyncRequest (s : Store) (since : Option Int) : SyncData :=
  match since with
  | none => getAllData s
  | some t => if t = 0 then getAllData s else getDataSince s t

/-! ### P2P messages and deduplication (p2p.ts) -/

/-- types.ts `P2PMessage` (the wire envelope). -/
inductive P2PMessage where
  | SYNC_REQUEST (since : Option Int)
  | SYNC_RESPONSE (data : SyncData)
  | NEW_COMMUNITY (data : Community)
  | NEW_POST (data : Post)
  | NEW_COMMENT (data : Comment)
  | VOTE (data : Vote)
  | TIP (data : Tip)
  | PEER_LIST (data : List String)
deriving DecidableEq

/-- p2p.ts `getMessageKey`: a dedup key for the five broadcast kinds; `null`
for `SYNC_REQUEST`/`SYNC_RESPONSE`/`PEER_LIST`. -/
def getMessageKey : P2PMessage → Option String
  | .NEW_COMMUNITY d => some ("community:" ++ d.id)
  | .NEW_POST d => some ("post:" ++ d.id)
  | .NEW_COMMENT d => some ("comment:" ++ d.id)
  | .VOTE d => some ("vote:" ++ d.id)
  | .TIP d => some ("tip:" ++ d.id)
  | _ => none

/-- The `seenMessages` map: insertion-ordered key/timestamp pairs. -/
abbrev SeenMap : Type := List (String × Int)

/-- p2p.ts `SEEN_MSG_TTL = 30_000`. -/
def SEEN_MSG_TTL : Int := 30000

/-- JavaScript `Map.set`: overwrite in place or append a new entry. -/
def seenSet (m : SeenMap) (k : String) (ts : Int) : SeenMap :=
  if (List.any m fun kv => decide (kv.1 = k)) then
    List.map (fun kv => if kv.1 = k then (k, ts) else kv) m
  else m ++ [(k, ts)]

/-- p2p.ts `isMessageSeen`: non-dedup messages always pass; otherwise expired
entries are evicted when the map exceeds 500 entries, then a key hit means
"already seen" and a miss records the key at the current time. -/
def isMessageSeen (m : SeenMap) (now : Int) (msg : P2PMessage) : Bool × SeenMap :=
  match getMessageKey msg with
  | none => (false, m)
  | some key =>
    let m1 := if 500 < List.length m then
        List.filter (fun kv => !decide (SEEN_MSG_TTL < now - kv.2)) m
      else m
    if List.any m1 (fun kv => decide (kv.1 = key)) then (true, m1)
    else (false, seenSet m1 key now)

/-- The store-level effect of one delivered message: p2p.ts `handleMessage`
combined with the store-context subscriber (part_003), which re-checks the
signature gate and upserts the record for the five broadcast kinds.
`SYNC_REQUEST` and `PEER_LIST` do not write to the store. -/
def applyMessage (sha : String → String) (verify : String → String → String → Bool)
    (addressToPublicKey : String → Option String) (s : Store) : P2PMessage → Store
  | .SYNC_REQUEST _ => s
  | .SYNC_RESPONSE d => mergeData verify addressToPublicKey s d
  | .PEER_LIST _ => s
  | .NEW_COMMUNITY c =>
    if verifyCommunitySignature verify addressToPublicKey c then
      (upsertCommunity sha s c false).1
    else s
  | .NEW_POST p =>
    if verifyPostSignature verify addressToPublicKey p then (upsertPost sha s p false).1
    else s
  | .NEW_COMMENT c =>
    if verifyCommentSignature verify addressToPublicKey c then (upsertComment sha s c false).1
    else s
  | .VOTE v =>
    if verifyVoteSignature verify addressToPublicKey v then (upsertVote s v).1
    else s
  | .TIP t =>
    if verifyTipSignature verify addressToPublicKey t then (upsertTip s t).1
    else s

/-- p2p.ts `conn.on('data')`: the dedup check runs first; a duplicate is
dropped before any processing, otherwise the message is handled. -/
def receiveData (sha : String → String) (verify : String → String → String → Bool)
    (addressToPublicKey : String → Option String) (st : SeenMap) (s : Store)
    (now : Int) (msg : P2PMessage) : SeenMap × Store :=
  let r := isMessageSeen st now msg
  if r.1 then (r.2, s) else (r.2, applyMessage sha verify addressToPublicKey s msg)

/-! ### Helper definitions for the vote-merge analysis -/

/-- The conflict key of a vote: the compound index `[targetId+voter]`. -/
def voteKey (v : Vote) : String × String := (v.targetId, v.voter)

/-- One LWW resolution step on a single stored vote: the incoming vote wins
(also on ties) and replaces `value`/`createdAt`/`signature`. -/
def pstep (cur v : Vote) : Vote :=
  if cur.createdAt ≤ v.createdAt then
    { cur with value := v.value, createdAt := v.createdAt, signature := v.signature }
  else cur

/-- LWW resolution of a stream of incoming votes against one stored vote. -/
def pfold (cur : Vote) (l : List Vote) : Vote := l.foldl pstep cur

/-- The votes of a batch that target one conflict key, in delivery order. -/
def keyFilter (W : List Vote) (k : String × String) : List Vote :=
  W.filter (fun w => decide (voteKey w = k))

/-- The records the vote loop freshly inserts: the first batch vote of each
key not in `seen`, resolved against the later batch votes of the same key. -/
def freshInserts (seen : List (String × String)) : List Vote → List Vote
  | [] => []
  | v :: rest =>
    if voteKey v ∈ seen then freshInserts seen rest
    else pfold v (keyFilter rest (voteKey v)) :: freshInserts (voteKey v :: seen) rest

/-- Canonical form of the vote table after the merge loop: stored votes
updated in place, then fresh inserts in order of first key occurrence. -/
def canonVotes (V W : List Vote) : List Vote :=
  V.map (fun e => pfold e (keyFilter W (voteKey e))) ++ freshInserts (V.map voteKey) W

/-- Distinct primary keys, Dexie's invariant on every table. -/
def UniqIds (l : List Vote) : Prop := l.Pairwise (fun a b => a.id ≠ b.id)

/-- At most one vote per conflict key, the program's vote-table invariant. -/
def UniqKeys (l : List Vote) : Prop := l.Pairwise (fun a b => voteKey a ≠ voteKey b)

/-! ### Concrete instances used by witnesses and counterexamples -/

/-- The empty store. -/
def emptyStore : Store := ⟨[], [], [], [], []⟩

/-- A signature verifier that rejects everything. -/
def vfFalse : String → String → String → Bool := fun _ _ _ => false

/-- An address-to-public-key map that fails on every address. -/
def apNone : String → Option String := fun _ => none

/-- The identity in place of the SHA-256 hex digest. -/
def shaId : String → String := fun s => s

/-- A constant hash function. -/
def shaEmpty : String → String := fun _ => ""

/-- A schema-valid dynamic post object with the given timestamp. -/
def examplePostJS (t : Int) : JSVal :=
  .obj [("id", .str "p1"), ("title", .str "hello"), ("body", .str "world"),
        ("author", .str "anonymous"), ("communityId", .str "c1"),
        ("createdAt", .num (.fin t))]

/-- An anonymous post. -/
def anonPost : Post := ⟨"p1", "t", "b", "anonymous", "Anonymous", "c1", 0, "", ""⟩

/-- A tip from a non-anonymous sender with an empty signature. -/
def badTip : Tip := ⟨"t1", "nano_x", "nano_y", "1", "h", "p1", "post", 0, ""⟩

/-- A store holding one community created at time 0. -/
def cexStore6 : Store := ⟨[⟨"c1", "n", "d", "anonymous", 0, "", ""⟩], [], [], [], []⟩

/-- A post carrying a signature, before its `cid` is stamped. -/
def cexPost4base : Post := ⟨"p1", "t", "b", "anonymous", "Anonymous", "c1", 0, "", "SIG"⟩

/-- The same post stamped exactly as creation does: the hash is computed over
the record with only `cid` blanked, the signature included. -/
def cexPost4 : Post :=
  { cexPost4base with cid := hashContent shaId (postFields { cexPost4base with cid := "" }) }

/-- A fresh post whose claimed `cid` matches no recomputed hash. -/
def cexPost5 : Post := ⟨"p9", "t", "b", "anonymous", "Anonymous", "c1", 0, "x", ""⟩

/-- Payload votes with colliding ids across different conflict keys. -/
def cexVoteA : Vote := ⟨"x", "T1", "post", "anonymous", 1, 50, ""⟩

/-- A vote of a second conflict key reusing the id of `cexVoteA`. -/
def cexVoteB : Vote := ⟨"x", "T2", "post", "anonymous", 1, 60, ""⟩

/-- A second vote for the key of `cexVoteA` under a fresh id. -/
def cexVoteC : Vote := ⟨"z", "T1", "post", "anonymous", -1, 10, ""⟩

/-- A `SYNC_RESPONSE` payload that breaks merge idempotence. -/
def cexSync : SyncData := ⟨[], [], [], [cexVoteA, cexVoteB, cexVoteC], []⟩

/-- A benign sync payload with one anonymous vote. -/
def okSync : SyncData := ⟨[], [], [], [⟨"v1", "T1", "post", "anonymous", 1, 5, ""⟩], []⟩

/-- An existing stored vote newer than `exampleVote`. -/
def exampleStoredVote : Vote := ⟨"v0", "T1", "post", "anonymous", -1, 99, ""⟩

/-- A store holding only `exampleStoredVote`. -/
def exampleVoteStore : Store := ⟨[], [], [], [exampleStoredVote], []⟩

/-- An incoming vote older than the stored one. -/
def exampleVote : Vote := ⟨"v2", "T1", "post", "anonymous", 1, 42, ""⟩

/-- A broadcast message for the dedup scenario. -/
def examplePostMsg : P2PMessage := .NEW_POST anonPost

/-! ## Theorems -/

/-- Claim C9: `upsertVote` returns `true` for every input vote, including
when an existing vote for the same `(targetId, voter)` pair has a strictly
newer `createdAt`, in which case the store is left completely unchanged; its
boolean result does not indicate whether anything was inserted or updated. -/
theorem upsertVote_returns_true_always : ∀ (s : Store) (v : Vote),
    (upsertVote s v).2 = true ∧
    ((∀ e ∈ s.votes, e.targetId = v.targetId → e.voter = v.voter → v.createdAt < e.createdAt) →
      (∃ e ∈ s.votes, e.targetId = v.targetId ∧ e.voter = v.voter) →
      (upsertVote s v).1 = s) := by
  intro s v
  constructor
  · unfold upsertVote
    rcases h : s.votes.find? (fun e => decide (e.targetId = v.targetId) && decide (e.voter = v.voter)) with _ | e
    · simp [h]
    · by_cases hc : e.createdAt ≤ v.createdAt <;> simp [h, hc]
  · intro hnew hex
    unfold upsertVote
    rcases h : s.votes.find? (fun e => decide (e.targetId = v.targetId) && decide (e.voter = v.voter)) with _ | e
    · exfalso
      obtain ⟨e, he, h1, h2⟩ := hex
      have := List.find?_eq_none.mp h e he
      simp [h1, h2] at this
    · have hpe := List.find?_some h
      have hmem := List.mem_of_find?_eq_some h
      simp only [Bool.and_eq_true, decide_eq_true_eq] at hpe
      have hlt := hnew e hmem hpe.1 hpe.2
      simp [h, not_le.mpr hlt]

/-- Witness for C9 at a concrete store holding a strictly newer vote. -/
theorem upsertVote_returns_true_always_witness :
    (upsertVote exampleVoteStore exampleVote).2 = true ∧
    (upsertVote exampleVoteStore exampleVote).1 = exampleVoteStore :=
  ⟨(upsertVote_returns_true_always exampleVoteStore exampleVote).1,
   (upsertVote_returns_true_always exampleVoteStore exampleVote).2 (by decide) (by decide)⟩

/-- Claim C3: for every record kind, signature verification returns `true`
when the author/creator/voter/sender identity is `"anonymous"`; for any other
identity it returns `false` whenever the signature is empty or the identity
cannot be converted to a public key (fail closed on malformed addresses). -/
theorem signature_gate_anonymous_and_fail_closed
    (verify : String → String → String → Bool) (addressToPublicKey : String → Option String) :
    (∀ p : Post, (p.author = "anonymous" → verifyPostSignature verify addressToPublicKey p = true) ∧
      (p.author ≠ "anonymous" → (p.signature = "" ∨ addressToPublicKey p.author = none) →
        verifyPostSignature verify addressToPublicKey p = false)) ∧
    (∀ c : Comment, (c.author = "anonymous" → verifyCommentSignature verify addressToPublicKey c = true) ∧
      (c.author ≠ "anonymous" → (c.signature = "" ∨ addressToPublicKey c.author = none) →
        verifyCommentSignature verify addressToPublicKey c = false)) ∧
    (∀ c : Community, (c.creator = "anonymous" → verifyCommunitySignature verify addressToPublicKey c = true) ∧
      (c.creator ≠ "anonymous" → (c.signature = "" ∨ addressToPublicKey c.creator = none) →
        verifyCommunitySignature verify addressToPublicKey c = false)) ∧
    (∀ v : Vote, (v.voter = "anonymous" → verifyVoteSignature verify addressToPublicKey v = true) ∧
      (v.voter ≠ "anonymous" → (v.signature = "" ∨ addressToPublicKey v.voter = none) →
        verifyVoteSignature verify addressToPublicKey v = false)) ∧
    (∀ t : Tip, (t.«from» = "anonymous" → verifyTipSignature verify addressToPublicKey t = true) ∧
      (t.«from» ≠ "anonymous" → (t.signature = "" ∨ addressToPublicKey t.«from» = none) →
        verifyTipSignature verify addressToPublicKey t = false)) := by
  refine ⟨fun p => ⟨fun h => ?_, fun hne hd => ?_⟩, fun c => ⟨fun h => ?_, fun hne hd => ?_⟩,
    fun c => ⟨fun h => ?_, fun hne hd => ?_⟩, fun v => ⟨fun h => ?_, fun hne hd => ?_⟩,
    fun t => ⟨fun h => ?_, fun hne hd => ?_⟩⟩ <;>
    first
    | simp [verifyPostSignature, verifyCommentSignature, verifyCommunitySignature,
        verifyVoteSignature, verifyTipSignature, h]
    | (simp only [verifyPostSignature, verifyCommentSignature, verifyCommunitySignature,
         verifyVoteSignature, verifyTipSignature]
       rw [if_neg hne]
       rcases hd with h | h
       · rw [if_pos h]
       · split
         · rfl
         · rw [h])

/-- Witness for C3: the anonymous post passes and the unsigned tip fails. -/
theorem signature_gate_anonymous_and_fail_closed_witness :
    verifyPostSignature vfFalse apNone anonPost = true ∧
    verifyTipSignature vfFalse apNone badTip = false :=
  ⟨((signature_gate_anonymous_and_fail_closed vfFalse apNone).1 anonPost).1 rfl,
   ((signature_gate_anonymous_and_fail_closed vfFalse apNone).2.2.2.2 badTip).2
     (by decide) (Or.inl rfl)⟩

/-- Counterexample for C6: with `since = 0` (present but falsy) the handler
returns the full snapshot, here including a record with `createdAt = 0`,
while the claim demands only records with `createdAt` strictly above 0. -/
theorem sync_request_since_zero_full_snapshot :
    handleSyncRequest cexStore6 (some 0) ≠ getDataSince cexStore6 0 := by decide

/-- Claim C6 (amended): `SYNC_REQUEST` with `since` absent or equal to the
falsy value 0 yields the full snapshot; any other `since` yields exactly the
records with `createdAt` strictly greater than `since`. -/
theorem sync_request_full_or_delta (s : Store) (t : Int) :
    handleSyncRequest s none = getAllData s ∧
    handleSyncRequest s (some 0) = getAllData s ∧
    (t ≠ 0 → handleSyncRequest s (some t) = getDataSince s t) ∧
    (∀ c : Community, c ∈ (getDataSince s t).communities ↔ c ∈ s.communities ∧ t < c.createdAt) ∧
    (∀ p : Post, p ∈ (getDataSince s t).posts ↔ p ∈ s.posts ∧ t < p.createdAt) ∧
    (∀ c : Comment, c ∈ (getDataSince s t).comments ↔ c ∈ s.comments ∧ t < c.createdAt) ∧
    (∀ v : Vote, v ∈ (getDataSince s t).votes ↔ v ∈ s.votes ∧ t < v.createdAt) ∧
    (∀ tp : Tip, tp ∈ (getDataSince s t).tips ↔ tp ∈ s.tips ∧ t < tp.createdAt) := by
  refine ⟨rfl, by simp [handleSyncRequest], fun h => by simp [handleSyncRequest, h],
    ?_, ?_, ?_, ?_, ?_⟩ <;>
    intro x <;> simp [getDataSince, List.mem_filter]

/-- Witness for C6 at a nonzero watermark. -/
theorem sync_request_full_or_delta_witness :
    handleSyncRequest emptyStore (some 5) = getDataSince emptyStore 5 :=
  (sync_request_full_or_delta emptyStore 5).2.2.1 (by decide)

/-- Counterexample for C4: post CID verification does not blank the
signature.  A post stamped the way creation stamps it (hash over the record
with only `cid` blanked, signature `"SIG"` included) is accepted by
`upsertPost`, while the digest recomputed with both `cid` and `signature`
blanked — what the claim describes — does not match its claimed `cid`. -/
theorem post_cid_check_does_not_blank_signature :
    (upsertPost shaId emptyStore cexPost4 false).2 = true ∧
    verifyCID shaId (postFields { cexPost4 with cid := "", signature := "" }) cexPost4.cid = false := by
  constructor <;> decide

/-- Claim C4 (amended): an empty/absent claimed digest always verifies; for
communities the digest is recomputed over the record with `cid` and
`signature` blanked, while for posts and comments only `cid` is blanked (the
signature is part of the hashed payload). -/
theorem cid_verification_blanking (sha : String → String) (s : Store)
    (c : Community) (p : Post) (cm : Comment)
    (hc : ∀ e ∈ s.communities, e.id ≠ c.id)
    (hp : ∀ e ∈ s.posts, e.id ≠ p.id)
    (hm : ∀ e ∈ s.comments, e.id ≠ cm.id) :
    (∀ fields : List (String × JLit), verifyCID sha fields "" = true) ∧
    ((upsertCommunity sha s c false).2 = true ↔
      (c.cid = "" ∨ hashContent sha (communityFields { c with cid := "", signature := "" }) = c.cid)) ∧
    ((upsertPost sha s p false).2 = true ↔
      (p.cid = "" ∨ hashContent sha (postFields { p with cid := "" }) = p.cid)) ∧
    ((upsertComment sha s cm false).2 = true ↔
      (cm.cid = "" ∨ hashContent sha (commentFields { cm with cid := "" }) = cm.cid)) := by
  have hfc : s.communities.find? (fun e => decide (e.id = c.id)) = none :=
    List.find?_eq_none.mpr (fun e he => by simp [hc e he])
  have hfp : s.posts.find? (fun e => decide (e.id = p.id)) = none :=
    List.find?_eq_none.mpr (fun e he => by simp [hp e he])
  have hfm : s.comments.find? (fun e => decide (e.id = cm.id)) = none :=
    List.find?_eq_none.mpr (fun e he => by simp [hm e he])
  refine ⟨fun fields => by simp [verifyCID], ?_, ?_, ?_⟩
  · unfold upsertCommunity
    rw [hfc]
    by_cases h0 : c.cid = ""
    · simp [h0]
    · by_cases hh : hashContent sha (communityFields { c with cid := "", signature := "" }) = c.cid <;>
        simp [h0, verifyCID, hh]
  · unfold upsertPost
    rw [hfp]
    by_cases h0 : p.cid = ""
    · simp [h0]
    · by_cases hh : hashContent sha (postFields { p with cid := "" }) = p.cid <;>
        simp [h0, verifyCID, hh]
  · unfold upsertComment
    rw [hfm]
    by_cases h0 : cm.cid = ""
    · simp [h0]
    · by_cases hh : hashContent sha (commentFields { cm with cid := "" }) = cm.cid <;>
        simp [h0, verifyCID, hh]

/-- Witness for C4 at the empty store and concrete records. -/
theorem cid_verification_blanking_witness :
    (upsertPost shaId emptyStore cexPost4 false).2 = true :=
  ((cid_verification_blanking shaId emptyStore ⟨"c", "n", "d", "anonymous", 0, "", ""⟩
      cexPost4 ⟨"m", "b", "anonymous", "Anonymous", "p", none, 0, "", ""⟩
      (by decide) (by decide) (by decide)).2.2.1).mpr (Or.inr (by decide))

/-- Claim C7: the validator accepts an inbound record only if its `createdAt`
is a finite non-negative number no greater than `now` plus five minutes;
`now + 1 hour` is dropped, `now + 1 minute` is accepted, and non-finite or
negative timestamps are always rejected. -/
theorem timestamp_validation_window (now : Int) :
    (∀ ts : JSNum, isReasonableTimestamp now ts = true ↔
      ∃ v : Int, ts = JSNum.fin v ∧ 0 ≤ v ∧ v ≤ now + MAX_TIMESTAMP_DRIFT) ∧
    (∀ p : JSVal, isValidPost now p = true →
      isReasonableTimestamp now (p.getField "createdAt").numVal = true) ∧
    (∀ c : JSVal, isValidCommunity now c = true →
      isReasonableTimestamp now (c.getField "createdAt").numVal = true) ∧
    (∀ c : JSVal, isValidComment now c = true →
      isReasonableTimestamp now (c.getField "createdAt").numVal = true) ∧
    (∀ v : JSVal, isValidVote now v = true →
      isReasonableTimestamp now (v.getField "createdAt").numVal = true) ∧
    (∀ t : JSVal, isValidTip now t = true →
      isReasonableTimestamp now (t.getField "createdAt").numVal = true) ∧
    (0 ≤ now → isValidPost now (examplePostJS (now + 60000)) = true) ∧
    isValidPost now (examplePostJS (now + 3600000)) = false := by
  refine ⟨?_, ?_, ?_, ?_, ?_, ?_, ?_, ?_⟩
  · intro ts
    cases ts with
    | nan => simp [isReasonableTimestamp]
    | posInf => simp [isReasonableTimestamp]
    | negInf => simp [isReasonableTimestamp]
    | fin v =>
      simp only [isReasonableTimestamp, JSNum.fin.injEq]
      split_ifs with h1 h2 <;> simp <;> omega
  · intro p h
    simp only [isValidPost, Bool.and_eq_true] at h
    exact h.2
  · intro c h
    simp only [isValidCommunity, Bool.and_eq_true] at h
    exact h.2
  · intro c h
    simp only [isValidComment, Bool.and_eq_true] at h
    exact h.2
  · intro v h
    simp only [isValidVote, Bool.and_eq_true] at h
    exact h.2
  · intro t h
    simp only [isValidTip, Bool.and_eq_true] at h
    exact h.2
  · intro h
    have l1 : "hello".length ≤ 300 := by decide
    have l2 : "world".length ≤ 40000 := by decide
    have l3 : "p1".length ≤ 100 := by decide
    have ht : isReasonableTimestamp now (JSNum.fin (now + 60000)) = true := by
      simp only [isReasonableTimestamp, MAX_TIMESTAMP_DRIFT]
      split_ifs with h1 h2 <;> first | rfl | omega
    simp [examplePostJS, isValidPost, JSVal.getField, lookupField, JSVal.truthy,
      JSVal.isStringType, JSVal.isNumberType, JSVal.strVal, JSVal.numVal,
      MAX_TITLE_LENGTH, MAX_BODY_LENGTH, l1, l2, l3, ht]
  · have l1 : "hello".length ≤ 300 := by decide
    have l2 : "world".length ≤ 40000 := by decide
    have l3 : "p1".length ≤ 100 := by decide
    have ht : isReasonableTimestamp now (JSNum.fin (now + 3600000)) = false := by
      simp only [isReasonableTimestamp, MAX_TIMESTAMP_DRIFT]
      split_ifs with h1 h2 <;> first | rfl | omega
    simp [examplePostJS, isValidPost, JSVal.getField, lookupField, JSVal.truthy,
      JSVal.isStringType, JSVal.isNumberType, JSVal.strVal, JSVal.numVal,
      MAX_TITLE_LENGTH, MAX_BODY_LENGTH, l1, l2, l3, ht]

/-- Witness for C7 at `now = 0`. -/
theorem timestamp_validation_window_witness :
    isValidPost 0 (examplePostJS 60000) = true ∧
    isReasonableTimestamp 7 (JSNum.fin 3) = true :=
  ⟨(timestamp_validation_window 0).2.2.2.2.2.2.1 (by decide),
   ((timestamp_validation_window 7).1 (JSNum.fin 3)).mpr ⟨3, rfl, by decide, by decide⟩⟩

/-- Claim C10: `validateSyncData` is total: falsy or non-object input yields
five empty arrays; a missing or non-array field yields an empty array; an
array field yields exactly the input records passing the per-entity check. -/
theorem validateSyncData_total_shape (now : Int) (data : JSVal) :
    ((data.truthy = false ∨ data.isObjectType = false) →
      validateSyncData now data = ⟨[], [], [], [], []⟩) ∧
    (data.truthy = true → data.isObjectType = true →
      (∀ l, data.getField "communities" = .arr l →
        (validateSyncData now data).communities = l.filter (isValidCommunity now)) ∧
      (∀ l, data.getField "posts" = .arr l →
        (validateSyncData now data).posts = l.filter (isValidPost now)) ∧
      (∀ l, data.getField "comments" = .arr l →
        (validateSyncData now data).comments = l.filter (isValidComment now)) ∧
      (∀ l, data.getField "votes" = .arr l →
        (validateSyncData now data).votes = l.filter (isValidVote now)) ∧
      (∀ l, data.getField "tips" = .arr l →
        (validateSyncData now data).tips = l.filter (isValidTip now))) ∧
    ((data.getField "communities").isArrayType = false →
      (validateSyncData now data).communities = []) ∧
    ((data.getField "posts").isArrayType = false →
      (validateSyncData now data).posts = []) ∧
    ((data.getField "comments").isArrayType = false →
      (validateSyncData now data).comments = []) ∧
    ((data.getField "votes").isArrayType = false →
      (validateSyncData now data).votes = []) ∧
    ((data.getField "tips").isArrayType = false →
      (validateSyncData now data).tips = []) := by
  by_cases hcond : (!data.truthy || !data.isObjectType) = true
  · have hempty : validateSyncData now data = ⟨[], [], [], [], []⟩ := by
      unfold validateSyncData
      rw [if_pos hcond]
    refine ⟨fun _ => hempty, fun h1 h2 => ?_, fun _ => by rw [hempty], fun _ => by rw [hempty],
      fun _ => by rw [hempty], fun _ => by rw [hempty], fun _ => by rw [hempty]⟩
    rw [h1, h2] at hcond
    simp at hcond
  · simp only [Bool.or_eq_true, Bool.not_eq_true', not_or] at hcond
    have h1 : data.truthy = true := Bool.ne_false_iff.mp hcond.1
    have h2 : data.isObjectType = true := Bool.ne_false_iff.mp hcond.2
    have hneg : ¬((!data.truthy || !data.isObjectType) = true) := by simp [h1, h2]
    refine ⟨fun hd => ?_, fun _ _ => ?_, ?_, ?_, ?_, ?_, ?_⟩
    · rcases hd with hd | hd
      · rw [h1] at hd; exact absurd hd (by simp)
      · rw [h2] at hd; exact absurd hd (by simp)
    · refine ⟨?_, ?_, ?_, ?_, ?_⟩ <;>
        (intro l hl
         unfold validateSyncData
         rw [if_neg hneg]
         simp [hl])
    · intro hna
      unfold validateSyncData
      rw [if_neg hneg]
      rcases hf : data.getField "communities" with _ | _ | _ | _ | _ | l | _ <;> simp_all [JSVal.isArrayType]
    · intro hna
      unfold validateSyncData
      rw [if_neg hneg]
      rcases hf : data.getField "posts" with _ | _ | _ | _ | _ | l | _ <;> simp_all [JSVal.isArrayType]
    · intro hna
      unfold validateSyncData
      rw [if_neg hneg]
      rcases hf : data.getField "comments" with _ | _ | _ | _ | _ | l | _ <;> simp_all [JSVal.isArrayType]
    · intro hna
      unfold validateSyncData
      rw [if_neg hneg]
      rcases hf : data.getField "votes" with _ | _ | _ | _ | _ | l | _ <;> simp_all [JSVal.isArrayType]
    · intro hna
      unfold validateSyncData
      rw [if_neg hneg]
      rcases hf : data.getField "tips" with _ | _ | _ | _ | _ | l | _ <;> simp_all [JSVal.isArrayType]

/-! ### List helper lemmas -/

theorem find?_append_none {α : Type} (p : α → Bool) {l1 : List α} (l2 : List α)
    (h : ∀ e ∈ l1, ¬p e = true) : (l1 ++ l2).find? p = l2.find? p := by
  induction l1 with
  | nil => rfl
  | cons a t ih =>
    have ha : p a = false := by
      have := h a (by simp)
      simp_all
    rw [List.cons_append, List.find?_cons_of_neg _ (by simp [ha])]
    exact ih fun e he => h e (by simp [he])

theorem filter_append_singleton {α : Type} (p : α → Bool) {l : List α} (x : α)
    (hl : ∀ e ∈ l, ¬p e = true) (hx : p x = true) : (l ++ [x]).filter p = [x] := by
  rw [List.filter_append, List.filter_eq_nil_iff.mpr hl]
  simp [hx]

theorem map_unchanged {α : Type} {f : α → α} {l : List α} (h : ∀ e ∈ l, f e = e) :
    l.map f = l := by
  rw [List.map_congr_left (g := id) h, List.map_id]

/-- `upsertVote` on a store with no vote for the incoming key and no id
collision appends the vote. -/
theorem upsertVote_insert_fresh (s : Store) (v : Vote)
    (hfresh : ∀ e ∈ s.votes, ¬(e.targetId = v.targetId ∧ e.voter = v.voter))
    (hid : ∀ e ∈ s.votes, e.id ≠ v.id) :
    upsertVote s v = ({ s with votes := s.votes ++ [v] }, true) := by
  unfold upsertVote
  have hf : s.votes.find? (fun e => decide (e.targetId = v.targetId) && decide (e.voter = v.voter)) = none :=
    List.find?_eq_none.mpr fun e he => by
      have := hfresh e he
      simp_all
  rw [hf]
  have hany : (s.votes.any fun e => decide (e.id = v.id)) = false := by
    simp only [List.any_eq_false]
    intro e he
    simp [hid e he]
  simp [putByKey, hany]

/-- `upsertVote` of a newer (or tying) vote for the key of the last stored
vote updates it in place. -/
theorem upsertVote_update_tail (s : Store) (v w : Vote)
    (hfresh : ∀ e ∈ s.votes, ¬(e.targetId = w.targetId ∧ e.voter = w.voter))
    (hid : ∀ e ∈ s.votes, e.id ≠ v.id)
    (hkey1 : v.targetId = w.targetId) (hkey2 : v.voter = w.voter)
    (hle : v.createdAt ≤ w.createdAt) :
    upsertVote { s with votes := s.votes ++ [v] } w =
      ({ s with votes := s.votes ++ [{ v with value := w.value, createdAt := w.createdAt, signature := w.signature }] }, true) := by
  unfold upsertVote
  have hff : ((s.votes ++ [v]).find? fun e => decide (e.targetId = w.targetId) && decide (e.voter = w.voter)) = some v := by
    rw [find?_append_none _ _ (fun e he => by have := hfresh e he; simp_all)]
    simp [List.find?, hkey1, hkey2]
  simp only [hff]
  rw [if_pos hle]
  simp only [updateVoteById, List.map_append]
  rw [map_unchanged (fun e he => by simp [hid e he])]
  simp

/-- `upsertVote` of a strictly older vote for the key of the last stored
vote leaves the store unchanged. -/
theorem upsertVote_skip_tail (s : Store) (v w : Vote)
    (hfresh : ∀ e ∈ s.votes, ¬(e.targetId = w.targetId ∧ e.voter = w.voter))
    (hkey1 : v.targetId = w.targetId) (hkey2 : v.voter = w.voter)
    (hgt : w.createdAt < v.createdAt) :
    upsertVote { s with votes := s.votes ++ [v] } w = ({ s with votes := s.votes ++ [v] }, true) := by
  unfold upsertVote
  have hff : ((s.votes ++ [v]).find? fun e => decide (e.targetId = w.targetId) && decide (e.voter = w.voter)) = some v := by
    rw [find?_append_none _ _ (fun e he => by have := hfresh e he; simp_all)]
    simp [List.find?, hkey1, hkey2]
  simp only [hff]
  rw [if_neg (by omega)]

/-- Claim C1: for a fixed `(targetId, voter)` pair, merging `v1`
(`createdAt = 100`, `value = +1`) and `v2` (`createdAt = 200`, `value = -1`)
through `upsertVote` in either delivery order converges to a single stored
vote with `value = -1`: the greater-or-equal `createdAt` wins and replaces
`value`/`createdAt`/`signature` in place, the incoming record winning ties
(third conjunct, where the incoming tie `v2'` overwrites the fields). -/
theorem vote_lww_converges (s : Store) (t vr id1 id2 sig1 sig2 tt1 tt2 : String)
    (hfresh : ∀ e ∈ s.votes, ¬(e.targetId = t ∧ e.voter = vr))
    (hid1 : ∀ e ∈ s.votes, e.id ≠ id1) (hid2 : ∀ e ∈ s.votes, e.id ≠ id2) :
    ((upsertVote (upsertVote s ⟨id1, t, tt1, vr, 1, 100, sig1⟩).1 ⟨id2, t, tt2, vr, -1, 200, sig2⟩).1.votes.filter
        (fun e => decide (e.targetId = t) && decide (e.voter = vr))
      = [⟨id1, t, tt1, vr, -1, 200, sig2⟩]) ∧
    ((upsertVote (upsertVote s ⟨id2, t, tt2, vr, -1, 200, sig2⟩).1 ⟨id1, t, tt1, vr, 1, 100, sig1⟩).1.votes.filter
        (fun e => decide (e.targetId = t) && decide (e.voter = vr))
      = [⟨id2, t, tt2, vr, -1, 200, sig2⟩]) ∧
    ((upsertVote (upsertVote s ⟨id1, t, tt1, vr, 1, 100, sig1⟩).1 ⟨id2, t, tt2, vr, -1, 100, sig2⟩).1.votes.filter
        (fun e => decide (e.targetId = t) && decide (e.voter = vr))
      = [⟨id1, t, tt1, vr, -1, 100, sig2⟩]) := by
  have hfilter : ∀ (x : Vote), x.targetId = t → x.voter = vr →
      (s.votes ++ [x]).filter (fun e => decide (e.targetId = t) && decide (e.voter = vr)) = [x] :=
    fun x h1 h2 => filter_append_singleton _ x
      (fun e he => by have := hfresh e he; simp_all) (by simp [h1, h2])
  have hfr1 : ∀ e ∈ s.votes, ¬(e.targetId = t ∧ e.voter = vr) := hfresh
  refine ⟨?_, ?_, ?_⟩
  · rw [upsertVote_insert_fresh s ⟨id1, t, tt1, vr, 1, 100, sig1⟩ hfr1 hid1]
    dsimp only
    rw [upsertVote_update_tail s ⟨id1, t, tt1, vr, 1, 100, sig1⟩ ⟨id2, t, tt2, vr, -1, 200, sig2⟩
      hfr1 hid1 rfl rfl (show (100 : Int) ≤ 200 by decide)]
    exact hfilter _ rfl rfl
  · rw [upsertVote_insert_fresh s ⟨id2, t, tt2, vr, -1, 200, sig2⟩ hfr1 hid2]
    dsimp only
    rw [upsertVote_skip_tail s ⟨id2, t, tt2, vr, -1, 200, sig2⟩ ⟨id1, t, tt1, vr, 1, 100, sig1⟩
      hfr1 rfl rfl (show (100 : Int) < 200 by decide)]
    exact hfilter _ rfl rfl
  · rw [upsertVote_insert_fresh s ⟨id1, t, tt1, vr, 1, 100, sig1⟩ hfr1 hid1]
    dsimp only
    rw [upsertVote_update_tail s ⟨id1, t, tt1, vr, 1, 100, sig1⟩ ⟨id2, t, tt2, vr, -1, 100, sig2⟩
      hfr1 hid1 rfl rfl (show (100 : Int) ≤ 100 by decide)]
    exact hfilter _ rfl rfl

/-- Witness for C1 at the empty store. -/
theorem vote_lww_converges_witness :
    (upsertVote (upsertVote emptyStore ⟨"a", "T", "post", "V", 1, 100, "s1"⟩).1
        ⟨"b", "T", "post", "V", -1, 200, "s2"⟩).1.votes.filter
      (fun e => decide (e.targetId = "T") && decide (e.voter = "V"))
      = [⟨"a", "T", "post", "V", -1, 200, "s2"⟩] :=
  (vote_lww_converges emptyStore "T" "V" "a" "b" "s1" "s2" "post" "post"
    (by decide) (by decide) (by decide)).1

/-- Folding Dexie `put` over records whose ids avoid `tbl` only appends or
rewrites the appended region. -/
theorem foldl_putByKey_extra {α : Type} (getId : α → String) (tbl : List α) (P : α → Prop)
    (hPid : ∀ x, P x → getId x ∉ tbl.map getId) :
    ∀ (L acc : List α), (∀ x ∈ L, P x) → (∀ x ∈ acc, P x) →
      ∃ extra, L.foldl (putByKey getId) (tbl ++ acc) = tbl ++ extra ∧ ∀ x ∈ extra, P x := by
  intro L
  induction L with
  | nil => exact fun acc _ hacc => ⟨acc, rfl, hacc⟩
  | cons x L ih =>
    intro acc hL hacc
    have hPx : P x := hL x (by simp)
    by_cases hany : ((tbl ++ acc).any fun e => decide (getId e = getId x)) = true
    · have hstep : putByKey getId (tbl ++ acc) x =
          tbl ++ acc.map (fun e => if getId e = getId x then x else e) := by
        unfold putByKey
        rw [if_pos hany, List.map_append]
        congr 1
        apply map_unchanged
        intro e he
        have hne : getId e ≠ getId x := fun hEq => hPid x hPx (hEq ▸ List.mem_map_of_mem getId he)
        simp [hne]
      have hacc' : ∀ y ∈ acc.map (fun e => if getId e = getId x then x else e), P y := by
        intro y hy
        rcases List.mem_map.mp hy with ⟨e, he, hEq⟩
        by_cases hc : getId e = getId x
        · rw [← hEq]
          simp only [hc, if_pos]
          exact hPx
        · rw [← hEq]
          simp only [hc, if_neg, ite_false]
          exact hacc e he
      rw [List.foldl_cons, hstep]
      exact ih _ (fun z hz => hL z (by simp [hz])) hacc'
    · have hstep : putByKey getId (tbl ++ acc) x = tbl ++ (acc ++ [x]) := by
        unfold putByKey
        rw [if_neg hany, List.append_assoc]
      rw [List.foldl_cons, hstep]
      refine ih _ (fun z hz => hL z (by simp [hz])) ?_
      intro y hy
      rcases List.mem_append.mp hy with h | h
      · exact hacc y h
      · simp only [List.mem_singleton] at h
        rw [h]
        exact hPx

/-- The bulk-merge path for one table appends only batch records whose ids
are not already present. -/
theorem bulkInsertNew_shape {α : Type} (getId : α → String) (tbl batch : List α) :
    ∃ extra, bulkInsertNew getId tbl batch = tbl ++ extra ∧
      ∀ x ∈ extra, x ∈ batch ∧ getId x ∉ tbl.map getId := by
  unfold bulkInsertNew
  by_cases hlen : 0 < (batch.filter (fun x => !(tbl.map getId).contains (getId x))).length
  · rw [if_pos hlen]
    have hL : ∀ x ∈ batch.filter (fun x => !(tbl.map getId).contains (getId x)),
        x ∈ batch ∧ getId x ∉ tbl.map getId := by
      intro x hx
      have hmem := List.mem_of_mem_filter hx
      have hprop := List.of_mem_filter hx
      simp only [Bool.not_eq_true'] at hprop
      refine ⟨hmem, fun hc => ?_⟩
      have := List.elem_eq_true_of_mem hc
      simp_all [List.contains]
    have := foldl_putByKey_extra getId tbl (fun x => x ∈ batch ∧ getId x ∉ tbl.map getId)
      (fun x hx => hx.2) (batch.filter (fun x => !(tbl.map getId).contains (getId x))) [] hL (by simp)
    simpa using this
  · rw [if_neg hlen]
    exact ⟨[], (List.append_nil tbl).symm, by simp⟩

/-- Counterexample for C5: a post with a fresh id but a non-empty claimed
`cid` that fails the content-address check is rejected (`false`, no insert),
refuting "a fresh id inserts and returns true". -/
theorem fresh_post_with_bad_cid_rejected :
    emptyStore.posts = [] ∧
    (upsertPost shaEmpty emptyStore cexPost5 false).2 = false ∧
    (upsertPost shaEmpty emptyStore cexPost5 false).1 = emptyStore := by
  refine ⟨rfl, ?_, ?_⟩ <;> decide

/-- Claim C5 (amended): for Post, Comment, Community and Tip, upserting a
record whose id is present leaves the store unchanged and returns `false`;
a record with a fresh id is inserted with result `true` provided it passes
the content-address check when it carries a non-empty `cid` (a Tip is
inserted unconditionally); the bulk merge inserts only records whose ids
are not already present. -/
theorem upsert_insert_if_absent (sha : String → String)
    (verify : String → String → String → Bool) (addressToPublicKey : String → Option String)
    (s : Store) (d : SyncData) (c : Community) (p : Post) (cm : Comment) (tp : Tip) :
    ((∃ e ∈ s.communities, e.id = c.id) → upsertCommunity sha s c false = (s, false)) ∧
    ((∃ e ∈ s.posts, e.id = p.id) → upsertPost sha s p false = (s, false)) ∧
    ((∃ e ∈ s.comments, e.id = cm.id) → upsertComment sha s cm false = (s, false)) ∧
    ((∃ e ∈ s.tips, e.id = tp.id) → upsertTip s tp = (s, false)) ∧
    ((∀ e ∈ s.communities, e.id ≠ c.id) →
      (c.cid = "" ∨ hashContent sha (communityFields { c with cid := "", signature := "" }) = c.cid) →
      upsertCommunity sha s c false = ({ s with communities := s.communities ++ [c] }, true)) ∧
    ((∀ e ∈ s.posts, e.id ≠ p.id) →
      (p.cid = "" ∨ hashContent sha (postFields { p with cid := "" }) = p.cid) →
      upsertPost sha s p false = ({ s with posts := s.posts ++ [p] }, true)) ∧
    ((∀ e ∈ s.comments, e.id ≠ cm.id) →
      (cm.cid = "" ∨ hashContent sha (commentFields { cm with cid := "" }) = cm.cid) →
      upsertComment sha s cm false = ({ s with comments := s.comments ++ [cm] }, true)) ∧
    ((∀ e ∈ s.tips, e.id ≠ tp.id) →
      upsertTip s tp = ({ s with tips := s.tips ++ [tp] }, true)) ∧
    (∃ extra, (mergeData verify addressToPublicKey s d).communities = s.communities ++ extra ∧
      ∀ x ∈ extra, x ∈ d.communities ∧ x.id ∉ s.communities.map Community.id) ∧
    (∃ extra, (mergeData verify addressToPublicKey s d).posts = s.posts ++ extra ∧
      ∀ x ∈ extra, x ∈ d.posts ∧ x.id ∉ s.posts.map Post.id) ∧
    (∃ extra, (mergeData verify addressToPublicKey s d).comments = s.comments ++ extra ∧
      ∀ x ∈ extra, x ∈ d.comments ∧ x.id ∉ s.comments.map Comment.id) ∧
    (∃ extra, (mergeData verify addressToPublicKey s d).tips = s.tips ++ extra ∧
      ∀ x ∈ extra, x ∈ d.tips ∧ x.id ∉ s.tips.map Tip.id) := by
  have existsFind : ∀ {β : Type} (l : List β) (f : β → String) (i : String),
      (∃ e ∈ l, f e = i) → ∃ e, l.find? (fun e => decide (f e = i)) = some e := by
    intro β l f i h
    rcases h with ⟨e, he, hi⟩
    have : (l.find? (fun e => decide (f e = i))).isSome := by
      rw [List.find?_isSome]
      exact ⟨e, he, by simp [hi]⟩
    exact Option.isSome_iff_exists.mp this
  have freshAppend : ∀ {β : Type} (l : List β) (f : β → String) (x : β),
      (∀ e ∈ l, f e ≠ f x) → putByKey f l x = l ++ [x] := by
    intro β l f x h
    unfold putByKey
    rw [if_neg]
    simp only [List.any_eq_true, not_exists]
    intro e
    intro hc
    rcases hc with ⟨he, hc⟩
    simp [h e he] at hc
  refine ⟨?_, ?_, ?_, ?_, ?_, ?_, ?_, ?_, ?_, ?_, ?_, ?_⟩
  · intro hex
    obtain ⟨e, hfind⟩ := existsFind s.communities Community.id c.id hex
    unfold upsertCommunity
    rw [hfind]
  · intro hex
    obtain ⟨e, hfind⟩ := existsFind s.posts Post.id p.id hex
    unfold upsertPost
    rw [hfind]
  · intro hex
    obtain ⟨e, hfind⟩ := existsFind s.comments Comment.id cm.id hex
    unfold upsertComment
    rw [hfind]
  · intro hex
    obtain ⟨e, hfind⟩ := existsFind s.tips Tip.id tp.id hex
    unfold upsertTip
    rw [hfind]
  · intro hfr hcid
    unfold upsertCommunity
    rw [List.find?_eq_none.mpr (fun e he => by simp [hfr e he])]
    rw [freshAppend s.communities Community.id c (fun e he hc => hfr e he hc)]
    by_cases h0 : c.cid = ""
    · simp [h0]
    · rcases hcid with h | h
      · exact absurd h h0
      · simp [h0, verifyCID, h]
  · intro hfr hcid
    unfold upsertPost
    rw [List.find?_eq_none.mpr (fun e he => by simp [hfr e he])]
    rw [freshAppend s.posts Post.id p (fun e he hc => hfr e he hc)]
    by_cases h0 : p.cid = ""
    · simp [h0]
    · rcases hcid with h | h
      · exact absurd h h0
      · simp [h0, verifyCID, h]
  · intro hfr hcid
    unfold upsertComment
    rw [List.find?_eq_none.mpr (fun e he => by simp [hfr e he])]
    rw [freshAppend s.comments Comment.id cm (fun e he hc => hfr e he hc)]
    by_cases h0 : cm.cid = ""
    · simp [h0]
    · rcases hcid with h | h
      · exact absurd h h0
      · simp [h0, verifyCID, h]
  · intro hfr
    unfold upsertTip
    rw [List.find?_eq_none.mpr (fun e he => by simp [hfr e he])]
    rw [freshAppend s.tips Tip.id tp (fun e he hc => hfr e he hc)]
  · obtain ⟨extra, heq, hprop⟩ := bulkInsertNew_shape Community.id s.communities
      ((verifySyncSignatures verify addressToPublicKey d).communities)
    exact ⟨extra, heq, fun x hx => ⟨List.mem_of_mem_filter (hprop x hx).1, (hprop x hx).2⟩⟩
  · obtain ⟨extra, heq, hprop⟩ := bulkInsertNew_shape Post.id s.posts
      ((verifySyncSignatures verify addressToPublicKey d).posts)
    exact ⟨extra, heq, fun x hx => ⟨List.mem_of_mem_filter (hprop x hx).1, (hprop x hx).2⟩⟩
  · obtain ⟨extra, heq, hprop⟩ := bulkInsertNew_shape Comment.id s.comments
      ((verifySyncSignatures verify addressToPublicKey d).comments)
    exact ⟨extra, heq, fun x hx => ⟨List.mem_of_mem_filter (hprop x hx).1, (hprop x hx).2⟩⟩
  · obtain ⟨extra, heq, hprop⟩ := bulkInsertNew_shape Tip.id s.tips
      ((verifySyncSignatures verify addressToPublicKey d).tips)
    exact ⟨extra, heq, fun x hx => ⟨List.mem_of_mem_filter (hprop x hx).1, (hprop x hx).2⟩⟩

/-- Witness for C5: an existing tip is not overwritten; a fresh tip is
inserted with result `true`. -/
theorem upsert_insert_if_absent_witness :
    upsertTip ⟨[], [], [], [], [badTip]⟩ badTip = (⟨[], [], [], [], [badTip]⟩, false) ∧
    upsertTip emptyStore badTip = (⟨[], [], [], [], [badTip]⟩, true) :=
  ⟨(upsert_insert_if_absent shaId vfFalse apNone ⟨[], [], [], [], [badTip]⟩
      ⟨[], [], [], [], []⟩ ⟨"c", "n", "d", "a", 0, "", ""⟩ anonPost
      ⟨"m", "b", "a", "A", "p", none, 0, "", ""⟩ badTip).2.2.2.1 ⟨badTip, by decide, rfl⟩,
   (upsert_insert_if_absent shaId vfFalse apNone emptyStore
      ⟨[], [], [], [], []⟩ ⟨"c", "n", "d", "a", 0, "", ""⟩ anonPost
      ⟨"m", "b", "a", "A", "p", none, 0, "", ""⟩ badTip).2.2.2.2.2.2.2.1 (by decide)⟩

/-- `isMessageSeen` on a key not in the map: passes and records the key. -/
theorem isMessageSeen_fresh (st : SeenMap) (now : Int) (msg : P2PMessage) (k : String)
    (hkey : getMessageKey msg = some k) (hfresh : ∀ kv ∈ st, kv.1 ≠ k) :
    ∃ m1, isMessageSeen st now msg = (false, m1 ++ [(k, now)]) ∧ ∀ kv ∈ m1, kv ∈ st := by
  simp only [isMessageSeen, hkey]
  by_cases h500 : 500 < List.length st
  · rw [if_pos h500]
    refine ⟨List.filter (fun kv => !decide (SEEN_MSG_TTL < now - kv.2)) st, ?_, ?_⟩
    · have hany : (List.any (List.filter (fun kv => !decide (SEEN_MSG_TTL < now - kv.2)) st)
          fun kv => decide (kv.1 = k)) = false := by
        simp only [List.any_eq_false]
        intro kv hkv
        simp [hfresh kv (List.mem_of_mem_filter hkv)]
      rw [if_neg (by simp [hany])]
      unfold seenSet
      rw [if_neg (by simp [hany])]
    · exact fun kv hkv => List.mem_of_mem_filter hkv
  · rw [if_neg h500]
    refine ⟨st, ?_, fun kv hkv => hkv⟩
    have hany : (List.any st fun kv => decide (kv.1 = k)) = false := by
      simp only [List.any_eq_false]
      intro kv hkv
      simp [hfresh kv hkv]
    rw [if_neg (by simp [hany])]
    unfold seenSet
    rw [if_neg (by simp [hany])]

/-- `isMessageSeen` flags a key recorded within the TTL window. -/
theorem isMessageSeen_hit (st : SeenMap) (nowOld now : Int) (msg : P2PMessage) (k : String)
    (hkey : getMessageKey msg = some k) (hmem : (k, nowOld) ∈ st)
    (hwin : now - nowOld ≤ SEEN_MSG_TTL) :
    (isMessageSeen st now msg).1 = true := by
  simp only [isMessageSeen, hkey]
  by_cases h500 : 500 < List.length st
  · rw [if_pos h500]
    have hmem2 : (k, nowOld) ∈ List.filter (fun kv => !decide (SEEN_MSG_TTL < now - kv.2)) st := by
      rw [List.mem_filter]
      exact ⟨hmem, by simp; omega⟩
    have hany : (List.any (List.filter (fun kv => !decide (SEEN_MSG_TTL < now - kv.2)) st)
        fun kv => decide (kv.1 = k)) = true :=
      List.any_eq_true.mpr ⟨(k, nowOld), hmem2, by simp⟩
    rw [if_pos (by simp [hany])]
  · rw [if_neg h500]
    have hany : (List.any st fun kv => decide (kv.1 = k)) = true :=
      List.any_eq_true.mpr ⟨(k, nowOld), hmem, by simp⟩
    rw [if_pos (by simp [hany])]

/-- Claim C8: a broadcast message (`NEW_COMMUNITY`/`NEW_POST`/`NEW_COMMENT`/
`VOTE`/`TIP`, keyed by type plus record id) delivered twice within the
30-second TTL is processed exactly once: the first delivery passes the seen
check, the second is flagged as seen and dropped before any store write;
`SYNC_REQUEST`, `SYNC_RESPONSE` and `PEER_LIST` are never deduplicated. -/
theorem broadcast_dedup_within_ttl (sha : String → String)
    (verify : String → String → String → Bool) (addressToPublicKey : String → Option String)
    (st : SeenMap) (s : Store) (now1 now2 : Int) (msg : P2PMessage) (k : String)
    (hkey : getMessageKey msg = some k)
    (hfresh : ∀ kv ∈ st, kv.1 ≠ k)
    (hwin : now2 - now1 ≤ SEEN_MSG_TTL) :
    (isMessageSeen st now1 msg).1 = false ∧
    (isMessageSeen (isMessageSeen st now1 msg).2 now2 msg).1 = true ∧
    (receiveData sha verify addressToPublicKey st s now1 msg).2
      = applyMessage sha verify addressToPublicKey s msg ∧
    (receiveData sha verify addressToPublicKey
        (receiveData sha verify addressToPublicKey st s now1 msg).1
        (receiveData sha verify addressToPublicKey st s now1 msg).2 now2 msg).2
      = applyMessage sha verify addressToPublicKey s msg ∧
    (∀ (m' : P2PMessage), getMessageKey m' = none →
      ∀ (st' : SeenMap) (n : Int), isMessageSeen st' n m' = (false, st')) ∧
    (∀ since, getMessageKey (.SYNC_REQUEST since) = none) ∧
    (∀ d, getMessageKey (.SYNC_RESPONSE d) = none) ∧
    (∀ ps, getMessageKey (.PEER_LIST ps) = none) := by
  obtain ⟨m1, h1, hsub⟩ := isMessageSeen_fresh st now1 msg k hkey hfresh
  have h2 : (isMessageSeen (isMessageSeen st now1 msg).2 now2 msg).1 = true := by
    rw [h1]
    exact isMessageSeen_hit (m1 ++ [(k, now1)]) now1 now2 msg k hkey (by simp) hwin
  have hR1 : receiveData sha verify addressToPublicKey st s now1 msg
      = (m1 ++ [(k, now1)], applyMessage sha verify addressToPublicKey s msg) := by
    unfold receiveData
    rw [h1]
    simp
  have h2' : (isMessageSeen (m1 ++ [(k, now1)]) now2 msg).1 = true :=
    isMessageSeen_hit (m1 ++ [(k, now1)]) now1 now2 msg k hkey (by simp) hwin
  refine ⟨by rw [h1], h2, ?_, ?_, ?_, fun _ => rfl, fun _ => rfl, fun _ => rfl⟩
  · rw [hR1]
  · rw [hR1]
    unfold receiveData
    simp [h2']
  · intro m' hm' st' n
    simp [isMessageSeen, hm']

/-- Witness for C8: the same `NEW_POST` delivered twice at times 0 and 10. -/
theorem broadcast_dedup_within_ttl_witness :
    (isMessageSeen [] 0 examplePostMsg).1 = false ∧
    (isMessageSeen (isMessageSeen [] 0 examplePostMsg).2 10 examplePostMsg).1 = true :=
  ⟨(broadcast_dedup_within_ttl shaId vfFalse apNone [] emptyStore 0 10 examplePostMsg
      "post:p1" rfl (by decide) (by decide)).1,
   (broadcast_dedup_within_ttl shaId vfFalse apNone [] emptyStore 0 10 examplePostMsg
      "post:p1" rfl (by decide) (by decide)).2.1⟩

/-- Witness for C10: `null` input yields five empty arrays. -/
theorem validateSyncData_total_shape_witness :
    validateSyncData 0 JSVal.jnull = ⟨[], [], [], [], []⟩ :=
  (validateSyncData_total_shape 0 JSVal.jnull).1 (Or.inl rfl)

/-- Counterexample for C2: `mergeData` is not idempotent for every payload.
The payload holds valid anonymous votes where `cexVoteB` reuses the id of
`cexVoteA` under a different `(targetId, voter)` key, so its Dexie `put`
displaces `cexVoteA`; applying the same payload to the empty store twice
then resurrects the key of `cexVoteA` on top of `cexVoteC`'s record with
different fields than a single application leaves. -/
theorem mergeData_not_idempotent_on_colliding_vote_ids :
    mergeN vfFalse apNone cexSync 2 emptyStore ≠ mergeN vfFalse apNone cexSync 1 emptyStore := by
  decide

/-! ### Per-record LWW fold lemmas (towards merge idempotence) -/

theorem pfold_nil (c : Vote) : pfold c [] = c := rfl

theorem pfold_cons (c v : Vote) (t : List Vote) : pfold c (v :: t) = pfold (pstep c v) t := rfl

theorem pstep_of_le {cur v : Vote} (h : cur.createdAt ≤ v.createdAt) :
    pstep cur v = { cur with value := v.value, createdAt := v.createdAt, signature := v.signature } := by
  unfold pstep
  rw [if_pos h]

theorem pstep_of_gt {cur v : Vote} (h : ¬ cur.createdAt ≤ v.createdAt) : pstep cur v = cur := by
  unfold pstep
  rw [if_neg h]

theorem pstep_id (v w : Vote) : (pstep v w).id = v.id := by
  unfold pstep
  split <;> rfl

theorem pstep_targetId (v w : Vote) : (pstep v w).targetId = v.targetId := by
  unfold pstep
  split <;> rfl

theorem pstep_voter (v w : Vote) : (pstep v w).voter = v.voter := by
  unfold pstep
  split <;> rfl

theorem pstep_targetType (v w : Vote) : (pstep v w).targetType = v.targetType := by
  unfold pstep
  split <;> rfl

theorem pstep_key (v w : Vote) : voteKey (pstep v w) = voteKey v := by
  unfold voteKey
  rw [pstep_targetId, pstep_voter]

theorem pstep_self (v : Vote) : pstep v v = v := pstep_of_le (le_refl _)

theorem pstep_createdAt_left (v w : Vote) : v.createdAt ≤ (pstep v w).createdAt := by
  by_cases h : v.createdAt ≤ w.createdAt
  · rw [pstep_of_le h]
    exact h
  · rw [pstep_of_gt h]

theorem pstep_createdAt_right (v w : Vote) : w.createdAt ≤ (pstep v w).createdAt := by
  by_cases h : v.createdAt ≤ w.createdAt
  · rw [pstep_of_le h]
  · rw [pstep_of_gt h]
    omega

/-- Overwriting a vote with fields it already has is the identity. -/
theorem vote_overwrite_eq (a : Vote) (vl ca : Int) (sg : String)
    (h1 : a.value = vl) (h2 : a.createdAt = ca) (h3 : a.signature = sg) :
    { a with value := vl, createdAt := ca, signature := sg } = a := by
  cases a
  simp_all

theorem pfold_base (l : List Vote) : ∀ c : Vote,
    (pfold c l).id = c.id ∧ (pfold c l).targetId = c.targetId ∧
    (pfold c l).voter = c.voter ∧ (pfold c l).targetType = c.targetType := by
  induction l with
  | nil => exact fun c => ⟨rfl, rfl, rfl, rfl⟩
  | cons w t ih =>
    intro c
    rw [pfold_cons]
    refine ⟨?_, ?_, ?_, ?_⟩
    · rw [(ih (pstep c w)).1, pstep_id]
    · rw [(ih (pstep c w)).2.1, pstep_targetId]
    · rw [(ih (pstep c w)).2.2.1, pstep_voter]
    · rw [(ih (pstep c w)).2.2.2, pstep_targetType]

theorem pfold_id_eq (c : Vote) (l : List Vote) : (pfold c l).id = c.id := (pfold_base l c).1

theorem pfold_key (c : Vote) (l : List Vote) : voteKey (pfold c l) = voteKey c := by
  unfold voteKey
  rw [(pfold_base l c).2.1, (pfold_base l c).2.2.1]

theorem pfold_createdAt_mono (l : List Vote) : ∀ c : Vote, c.createdAt ≤ (pfold c l).createdAt := by
  induction l with
  | nil => exact fun c => le_refl _
  | cons w t ih =>
    intro c
    rw [pfold_cons]
    exact le_trans (pstep_createdAt_left c w) (ih (pstep c w))

theorem pfold_createdAt_mem (l : List Vote) : ∀ (c : Vote), ∀ w ∈ l,
    w.createdAt ≤ (pfold c l).createdAt := by
  induction l with
  | nil =>
    intro c w hw
    cases hw
  | cons x t ih =>
    intro c w hw
    rw [pfold_cons]
    rcases List.mem_cons.mp hw with h | h
    · subst h
      exact le_trans (pstep_createdAt_right c w) (pfold_createdAt_mono t (pstep c w))
    · exact ih (pstep c x) w h

theorem pfold_congr_fields (l : List Vote) : ∀ (X Y : Vote),
    X.createdAt = Y.createdAt → X.id = Y.id → X.targetId = Y.targetId →
    X.voter = Y.voter → X.targetType = Y.targetType →
    (X = Y ∨ ∃ w ∈ l, X.createdAt ≤ w.createdAt) → pfold X l = pfold Y l := by
  induction l with
  | nil =>
    intro X Y h1 h2 h3 h4 h5 h6
    rcases h6 with h | ⟨w, hw, _⟩
    · rw [h]
    · cases hw
  | cons w t ih =>
    intro X Y h1 h2 h3 h4 h5 h6
    rcases h6 with h | ⟨u, hu, hle⟩
    · rw [h]
    · rw [pfold_cons, pfold_cons]
      by_cases hw : X.createdAt ≤ w.createdAt
      · have hstepEq : pstep X w = pstep Y w := by
          rw [pstep_of_le hw, pstep_of_le (h1 ▸ hw)]
          cases X
          cases Y
          simp_all
        rw [hstepEq]
      · rw [pstep_of_gt hw, pstep_of_gt (h1 ▸ hw)]
        apply ih X Y h1 h2 h3 h4 h5
        right
        rcases List.mem_cons.mp hu with h | h
        · subst h
          exact absurd hle hw
        · exact ⟨u, h, hle⟩

theorem pfold_acc_or_stay (l : List Vote) : ∀ X : Vote,
    pfold X l = X ∨ ∃ w ∈ l, w.createdAt = (pfold X l).createdAt := by
  induction l with
  | nil => exact fun X => Or.inl rfl
  | cons w t ih =>
    intro X
    rw [pfold_cons]
    rcases ih (pstep X w) with h | ⟨u, hu, hid⟩
    · by_cases hw : X.createdAt ≤ w.createdAt
      · right
        refine ⟨w, by simp, ?_⟩
        rw [h, pstep_of_le hw]
      · left
        rw [pstep_of_gt hw] at h ⊢
        exact h
    · right
      exact ⟨u, by simp [hu], hid⟩

theorem pfold_idem (l : List Vote) : ∀ c : Vote, pfold (pfold c l) l = pfold c l := by
  induction l with
  | nil => exact fun c => rfl
  | cons v t ih =>
    intro c
    rw [pfold_cons c v t, pfold_cons (pfold (pstep c v) t) v t]
    have hrt : pfold (pfold (pstep c v) t) t = pfold (pstep c v) t := ih (pstep c v)
    by_cases hv : (pfold (pstep c v) t).createdAt ≤ v.createdAt
    · have hvr : v.createdAt ≤ (pfold (pstep c v) t).createdAt :=
        le_trans (pstep_createdAt_right c v) (pfold_createdAt_mono t (pstep c v))
      have heq : v.createdAt = (pfold (pstep c v) t).createdAt := le_antisymm hvr hv
      rw [pstep_of_le hv]
      have hcongr : pfold { pfold (pstep c v) t with
            value := v.value, createdAt := v.createdAt, signature := v.signature } t
          = pfold (pfold (pstep c v) t) t := by
        refine pfold_congr_fields t
          { pfold (pstep c v) t with value := v.value, createdAt := v.createdAt, signature := v.signature }
          (pfold (pstep c v) t) heq rfl rfl rfl rfl ?_
        rcases pfold_acc_or_stay t (pstep c v) with h | ⟨u, hu, hcA⟩
        · by_cases hc : c.createdAt ≤ v.createdAt
          · left
            have hval : (pfold (pstep c v) t).value = v.value := by
              rw [h, pstep_of_le hc]
            have hat : (pfold (pstep c v) t).createdAt = v.createdAt := by
              rw [h, pstep_of_le hc]
            have hsig : (pfold (pstep c v) t).signature = v.signature := by
              rw [h, pstep_of_le hc]
            exact vote_overwrite_eq _ v.value v.createdAt v.signature hval hat hsig
          · exfalso
            rw [pstep_of_gt hc] at h heq
            have hcc : (pfold c t).createdAt = c.createdAt := by rw [h]
            omega
        · right
          refine ⟨u, hu, ?_⟩
          have hrv : ({ pfold (pstep c v) t with
              value := v.value, createdAt := v.createdAt, signature := v.signature } : Vote).createdAt
              = v.createdAt := rfl
          omega
      rw [hcongr, hrt]
    · rw [pstep_of_gt hv, hrt]

/-! ### Vote-table lemmas -/

theorem eq_of_mem_pairwise_ne {α : Type} {f : Vote → α} {l : List Vote}
    (hP : l.Pairwise (fun a b => f a ≠ f b)) :
    ∀ x ∈ l, ∀ y ∈ l, f x = f y → x = y := by
  induction l with
  | nil =>
    intro x hx
    cases hx
  | cons a t ih =>
    intro x hx y hy hf
    rcases List.pairwise_cons.mp hP with ⟨ha, ht⟩
    rcases List.mem_cons.mp hx with hx1 | hx1 <;> rcases List.mem_cons.mp hy with hy1 | hy1
    · rw [hx1, hy1]
    · subst hx1
      exact absurd hf (ha y hy1)
    · subst hy1
      exact absurd hf.symm (ha x hx1)
    · exact ih ht x hx1 y hy1 hf

theorem votePred_eq (e v : Vote) :
    ((decide (e.targetId = v.targetId) && decide (e.voter = v.voter)) = true) ↔
      voteKey e = voteKey v := by
  unfold voteKey
  simp [Prod.ext_iff]

theorem findVote_none {V : List Vote} {v : Vote}
    (h : ∀ e ∈ V, voteKey e ≠ voteKey v) :
    V.find? (fun e => decide (e.targetId = v.targetId) && decide (e.voter = v.voter)) = none :=
  List.find?_eq_none.mpr fun e he hc => h e he ((votePred_eq e v).mp hc)

theorem findVote_mem_key {V : List Vote} {v e : Vote}
    (h : V.find? (fun e => decide (e.targetId = v.targetId) && decide (e.voter = v.voter)) = some e) :
    e ∈ V ∧ voteKey e = voteKey v := by
  refine ⟨List.mem_of_find?_eq_some h, (votePred_eq e v).mp ?_⟩
  have hp := List.find?_some h
  exact hp

theorem keyFilter_cons (v : Vote) (rest : List Vote) (k : String × String) :
    keyFilter (v :: rest) k = if voteKey v = k then v :: keyFilter rest k else keyFilter rest k := by
  unfold keyFilter
  rw [List.filter_cons]
  by_cases h : voteKey v = k
  · rw [if_pos h, if_pos (by simp [h])]
  · rw [if_neg h, if_neg (by simp [h])]

/-- `applyVote` with an existing conflict-key match is a pointwise in-place
update of the (unique) matching record. -/
theorem applyVote_matched {V : List Vote} {v : Vote}
    (hK : UniqKeys V) (hI : UniqIds V) {e : Vote}
    (hfind : V.find? (fun e => decide (e.targetId = v.targetId) && decide (e.voter = v.voter)) = some e) :
    applyVote V v = V.map (fun x => if voteKey x = voteKey v then pstep x v else x) := by
  obtain ⟨hmem, hkey⟩ := findVote_mem_key hfind
  unfold applyVote
  simp only [hfind]
  by_cases hle : e.createdAt ≤ v.createdAt
  · rw [if_pos hle]
    unfold updateVoteById
    apply List.map_congr_left
    intro x hx
    by_cases hid : x.id = e.id
    · have hxe : x = e := eq_of_mem_pairwise_ne hI x hx e hmem hid
      rw [hxe]
      simp [hkey, pstep_of_le hle]
    · have hnkey : voteKey x ≠ voteKey v := by
        intro hk
        have hxe : x = e := eq_of_mem_pairwise_ne hK x hx e hmem (hk.trans hkey.symm)
        exact hid (by rw [hxe])
      simp [hid, hnkey]
  · rw [if_neg hle]
    symm
    apply map_unchanged
    intro x hx
    by_cases hk : voteKey x = voteKey v
    · have hxe : x = e := eq_of_mem_pairwise_ne hK x hx e hmem (hk.trans hkey.symm)
      rw [if_pos hk, hxe, pstep_of_gt hle]
    · rw [if_neg hk]

/-- `applyVote` with no conflict-key match and no id collision appends. -/
theorem applyVote_unmatched {V : List Vote} {v : Vote}
    (hno : ∀ e ∈ V, voteKey e ≠ voteKey v) (hid : ∀ e ∈ V, e.id ≠ v.id) :
    applyVote V v = V ++ [v] := by
  unfold applyVote
  rw [findVote_none hno]
  unfold putByKey
  have hany : (V.any fun e => decide (e.id = v.id)) = false := by
    simp only [List.any_eq_false]
    intro e he
    simp [hid e he]
  rw [if_neg (by simp [hany])]

theorem freshInserts_congr : ∀ (W : List Vote) (s1 s2 : List (String × String)),
    (∀ p, p ∈ s1 ↔ p ∈ s2) → freshInserts s1 W = freshInserts s2 W := by
  intro W
  induction W with
  | nil => intros; rfl
  | cons v rest ih =>
    intro s1 s2 hiff
    unfold freshInserts
    by_cases h : voteKey v ∈ s1
    · rw [if_pos h, if_pos ((hiff _).mp h)]
      exact ih s1 s2 hiff
    · rw [if_neg h, if_neg (fun hc => h ((hiff _).mpr hc))]
      congr 1
      apply ih
      intro p
      simp [hiff p]

theorem freshInserts_key_notin : ∀ (W : List Vote) (seen : List (String × String)),
    ∀ e ∈ freshInserts seen W, voteKey e ∉ seen := by
  intro W
  induction W with
  | nil =>
    intro seen e he
    cases he
  | cons v rest ih =>
    intro seen e he
    unfold freshInserts at he
    by_cases h : voteKey v ∈ seen
    · rw [if_pos h] at he
      exact ih seen e he
    · rw [if_neg h] at he
      rcases List.mem_cons.mp he with h1 | h1
      · rw [h1, pfold_key]
        exact h
      · intro hc
        exact ih _ e h1 (List.mem_cons_of_mem _ hc)

theorem freshInserts_from : ∀ (W : List Vote) (seen : List (String × String)),
    ∀ e ∈ freshInserts seen W, ∃ w ∈ W, voteKey e = voteKey w ∧ e.id = w.id := by
  intro W
  induction W with
  | nil =>
    intro seen e he
    cases he
  | cons v rest ih =>
    intro seen e he
    unfold freshInserts at he
    by_cases h : voteKey v ∈ seen
    · rw [if_pos h] at he
      obtain ⟨w, hw, hp⟩ := ih seen e he
      exact ⟨w, List.mem_cons_of_mem _ hw, hp⟩
    · rw [if_neg h] at he
      rcases List.mem_cons.mp he with h1 | h1
      · exact ⟨v, List.mem_cons_self _ _, by rw [h1, pfold_key], by rw [h1, pfold_id_eq]⟩
      · obtain ⟨w, hw, hp⟩ := ih _ e h1
        exact ⟨w, List.mem_cons_of_mem _ hw, hp⟩

theorem freshInserts_covers : ∀ (W : List Vote) (seen : List (String × String)),
    ∀ w ∈ W, voteKey w ∉ seen → ∃ e ∈ freshInserts seen W, voteKey e = voteKey w := by
  intro W
  induction W with
  | nil =>
    intro seen w hw
    cases hw
  | cons v rest ih =>
    intro seen w hw hnot
    unfold freshInserts
    rcases List.mem_cons.mp hw with h1 | h1
    · subst h1
      rw [if_neg hnot]
      exact ⟨_, List.mem_cons_self _ _, pfold_key _ _⟩
    · by_cases h : voteKey v ∈ seen
      · rw [if_pos h]
        exact ih seen w h1 hnot
      · rw [if_neg h]
        by_cases hkv : voteKey w = voteKey v
        · exact ⟨_, List.mem_cons_self _ _, (pfold_key _ _).trans hkv.symm⟩
        · obtain ⟨e, he, hk⟩ := ih (voteKey v :: seen) w h1 (by simp [hkv, hnot])
          exact ⟨e, List.mem_cons_of_mem _ he, hk⟩

theorem freshInserts_ids_sublist : ∀ (W : List Vote) (seen : List (String × String)),
    ((freshInserts seen W).map Vote.id).Sublist (W.map Vote.id) := by
  intro W
  induction W with
  | nil =>
    intro seen
    exact List.Sublist.refl _
  | cons v rest ih =>
    intro seen
    unfold freshInserts
    by_cases h : voteKey v ∈ seen
    · rw [if_pos h]
      exact List.sublist_cons_of_sublist _ (ih seen)
    · rw [if_neg h]
      simp only [List.map_cons]
      rw [pfold_id_eq]
      exact List.Sublist.cons₂ _ (ih _)

theorem freshInserts_keys_uniq : ∀ (W : List Vote) (seen : List (String × String)),
    UniqKeys (freshInserts seen W) := by
  intro W
  induction W with
  | nil =>
    intro seen
    exact List.Pairwise.nil
  | cons v rest ih =>
    intro seen
    unfold freshInserts
    by_cases h : voteKey v ∈ seen
    · rw [if_pos h]
      exact ih seen
    · rw [if_neg h]
      refine List.Pairwise.cons ?_ (ih _)
      intro e he hc
      have hni := freshInserts_key_notin rest (voteKey v :: seen) e he
      rw [pfold_key] at hc
      exact hni (hc ▸ List.mem_cons_self _ _)

theorem freshInserts_cons (seen : List (String × String)) (v : Vote) (rest : List Vote) :
    freshInserts seen (v :: rest) =
      if voteKey v ∈ seen then freshInserts seen rest
      else pfold v (keyFilter rest (voteKey v)) :: freshInserts (voteKey v :: seen) rest := rfl

/-- The vote-merge loop in canonical form: stored votes folded in place,
followed by the fresh inserts, provided the store has unique ids and keys
and the batch has fresh, pairwise-distinct ids. -/
theorem applyVotes_canon : ∀ (W V : List Vote),
    UniqIds V → UniqKeys V → UniqIds W → (∀ w ∈ W, ∀ e ∈ V, w.id ≠ e.id) →
    W.foldl applyVote V = canonVotes V W := by
  intro W
  induction W with
  | nil =>
    intro V _ _ _ _
    unfold canonVotes freshInserts
    rw [List.append_nil]
    symm
    apply map_unchanged
    intro e he
    rfl
  | cons v rest ih =>
    intro V hIV hKV hIW hdisj
    rw [List.foldl_cons]
    by_cases hmatch : ∃ e ∈ V, voteKey e = voteKey v
    · have hfindS : (V.find? (fun e => decide (e.targetId = v.targetId) && decide (e.voter = v.voter))).isSome := by
        rw [List.find?_isSome]
        obtain ⟨e, he, hk⟩ := hmatch
        exact ⟨e, he, (votePred_eq e v).mpr hk⟩
      obtain ⟨e0, hfind⟩ := Option.isSome_iff_exists.mp hfindS
      rw [applyVote_matched hKV hIV hfind]
      have hids : ∀ x : Vote, (if voteKey x = voteKey v then pstep x v else x).id = x.id := by
        intro x
        by_cases h : voteKey x = voteKey v
        · rw [if_pos h, pstep_id]
        · rw [if_neg h]
      have hkeys : ∀ x : Vote, voteKey (if voteKey x = voteKey v then pstep x v else x) = voteKey x := by
        intro x
        by_cases h : voteKey x = voteKey v
        · rw [if_pos h, pstep_key]
        · rw [if_neg h]
      have hIV2 : UniqIds (V.map (fun x => if voteKey x = voteKey v then pstep x v else x)) := by
        unfold UniqIds at hIV ⊢
        rw [List.pairwise_map]
        refine hIV.imp ?_
        intro a b hab
        rw [hids a, hids b]
        exact hab
      have hKV2 : UniqKeys (V.map (fun x => if voteKey x = voteKey v then pstep x v else x)) := by
        unfold UniqKeys at hKV ⊢
        rw [List.pairwise_map]
        refine hKV.imp ?_
        intro a b hab
        rw [hkeys a, hkeys b]
        exact hab
      have hIW2 : UniqIds rest := (List.pairwise_cons.mp hIW).2
      have hdisj2 : ∀ w ∈ rest,
          ∀ e ∈ V.map (fun x => if voteKey x = voteKey v then pstep x v else x), w.id ≠ e.id := by
        intro w hw e he
        rcases List.mem_map.mp he with ⟨x, hx, hEq⟩
        rw [← hEq, hids x]
        exact hdisj w (List.mem_cons_of_mem _ hw) x hx
      rw [ih _ hIV2 hKV2 hIW2 hdisj2]
      unfold canonVotes
      have hmapkey : (V.map (fun x => if voteKey x = voteKey v then pstep x v else x)).map voteKey
          = V.map voteKey := by
        rw [List.map_map]
        apply List.map_congr_left
        intro x hx
        exact hkeys x
      congr 1
      · rw [List.map_map]
        apply List.map_congr_left
        intro x hx
        simp only [Function.comp]
        rw [hkeys x, keyFilter_cons]
        by_cases h : voteKey x = voteKey v
        · rw [if_pos h, if_pos h.symm, pfold_cons]
        · rw [if_neg h, if_neg (fun hc => h hc.symm)]
      · rw [hmapkey]
        have hvseen : voteKey v ∈ V.map voteKey := by
          obtain ⟨e, he, hk⟩ := hmatch
          exact List.mem_map.mpr ⟨e, he, hk⟩
        rw [freshInserts_cons, if_pos hvseen]
    · push_neg at hmatch
      have hidv : ∀ e ∈ V, e.id ≠ v.id := fun e he =>
        Ne.symm (hdisj v (List.mem_cons_self _ _) e he)
      rw [applyVote_unmatched hmatch hidv]
      have hIV2 : UniqIds (V ++ [v]) := by
        unfold UniqIds at hIV ⊢
        rw [List.pairwise_append]
        refine ⟨hIV, by simp, ?_⟩
        intro a ha b hb
        simp only [List.mem_singleton] at hb
        subst hb
        exact hidv a ha
      have hKV2 : UniqKeys (V ++ [v]) := by
        unfold UniqKeys at hKV ⊢
        rw [List.pairwise_append]
        refine ⟨hKV, by simp, ?_⟩
        intro a ha b hb
        simp only [List.mem_singleton] at hb
        subst hb
        exact hmatch a ha
      have hIW2 : UniqIds rest := (List.pairwise_cons.mp hIW).2
      have hvid : ∀ w ∈ rest, w.id ≠ v.id := by
        intro w hw
        exact Ne.symm ((List.pairwise_cons.mp hIW).1 w hw)
      have hdisj2 : ∀ w ∈ rest, ∀ e ∈ V ++ [v], w.id ≠ e.id := by
        intro w hw e he
        rcases List.mem_append.mp he with h | h
        · exact hdisj w (List.mem_cons_of_mem _ hw) e h
        · simp only [List.mem_singleton] at h
          subst h
          exact hvid w hw
      rw [ih _ hIV2 hKV2 hIW2 hdisj2]
      unfold canonVotes
      rw [List.map_append]
      rw [freshInserts_cons]
      have hvnot : voteKey v ∉ V.map voteKey := by
        intro hc
        rcases List.mem_map.mp hc with ⟨e, he, hk⟩
        exact hmatch e he hk
      rw [if_neg hvnot]
      have hfcongr : freshInserts ((V ++ [v]).map voteKey) rest
          = freshInserts (voteKey v :: V.map voteKey) rest := by
        rw [List.map_append]
        apply freshInserts_congr
        intro p
        simp [or_comm]
      rw [hfcongr]
      have hheads : V.map (fun e => pfold e (keyFilter rest (voteKey e)))
          = V.map (fun e => pfold e (keyFilter (v :: rest) (voteKey e))) := by
        apply List.map_congr_left
        intro x hx
        rw [keyFilter_cons, if_neg (fun hc => hmatch x hx hc.symm)]
      rw [hheads, List.append_assoc]
      rfl

theorem update_id (x v : Vote) : (if voteKey x = voteKey v then pstep x v else x).id = x.id := by
  by_cases h : voteKey x = voteKey v
  · rw [if_pos h, pstep_id]
  · rw [if_neg h]

theorem update_key (x v : Vote) :
    voteKey (if voteKey x = voteKey v then pstep x v else x) = voteKey x := by
  by_cases h : voteKey x = voteKey v
  · rw [if_pos h, pstep_key]
  · rw [if_neg h]

/-- When every batch vote finds a conflict-key match, the loop is a family of
independent per-record folds. -/
theorem applyVotes_all_matched : ∀ (W S : List Vote),
    UniqKeys S → UniqIds S → (∀ w ∈ W, ∃ e ∈ S, voteKey e = voteKey w) →
    W.foldl applyVote S = S.map (fun e => pfold e (keyFilter W (voteKey e))) := by
  intro W
  induction W with
  | nil =>
    intro S _ _ _
    symm
    apply map_unchanged
    intro e he
    rfl
  | cons v rest ih =>
    intro S hK hI hcov
    rw [List.foldl_cons]
    have hfindS : (S.find? (fun e => decide (e.targetId = v.targetId) && decide (e.voter = v.voter))).isSome := by
      rw [List.find?_isSome]
      obtain ⟨e, he, hk⟩ := hcov v (List.mem_cons_self _ _)
      exact ⟨e, he, (votePred_eq e v).mpr hk⟩
    obtain ⟨e0, hfind⟩ := Option.isSome_iff_exists.mp hfindS
    rw [applyVote_matched hK hI hfind]
    have hK2 : UniqKeys (S.map (fun x => if voteKey x = voteKey v then pstep x v else x)) := by
      unfold UniqKeys at hK ⊢
      rw [List.pairwise_map]
      refine hK.imp ?_
      intro a b hab
      rw [update_key a v, update_key b v]
      exact hab
    have hI2 : UniqIds (S.map (fun x => if voteKey x = voteKey v then pstep x v else x)) := by
      unfold UniqIds at hI ⊢
      rw [List.pairwise_map]
      refine hI.imp ?_
      intro a b hab
      rw [update_id a v, update_id b v]
      exact hab
    have hcov2 : ∀ w ∈ rest,
        ∃ e ∈ S.map (fun x => if voteKey x = voteKey v then pstep x v else x),
          voteKey e = voteKey w := by
      intro w hw
      obtain ⟨e, he, hk⟩ := hcov w (List.mem_cons_of_mem _ hw)
      exact ⟨_, List.mem_map_of_mem _ he, by rw [update_key e v]; exact hk⟩
    rw [ih _ hK2 hI2 hcov2]
    rw [List.map_map]
    apply List.map_congr_left
    intro x hx
    simp only [Function.comp]
    rw [update_key x v, keyFilter_cons]
    by_cases h : voteKey x = voteKey v
    · rw [if_pos h, if_pos h.symm, pfold_cons]
    · rw [if_neg h, if_neg (fun hc => h hc.symm)]

/-- Every record produced by `freshInserts` is a fixpoint of its own
per-key fold over the whole batch. -/
theorem freshInserts_fix : ∀ (W : List Vote) (seen : List (String × String)),
    ∀ e ∈ freshInserts seen W, pfold e (keyFilter W (voteKey e)) = e := by
  intro W
  induction W with
  | nil =>
    intro seen e he
    cases he
  | cons v rest ih =>
    intro seen e he
    rw [freshInserts_cons] at he
    by_cases h : voteKey v ∈ seen
    · rw [if_pos h] at he
      have hkey : voteKey e ∉ seen := freshInserts_key_notin rest seen e he
      have hne : voteKey e ≠ voteKey v := fun hc => hkey (hc ▸ h)
      rw [keyFilter_cons, if_neg (fun hc => hne hc.symm)]
      exact ih seen e he
    · rw [if_neg h] at he
      rcases List.mem_cons.mp he with h1 | h1
      · subst h1
        rw [pfold_key, keyFilter_cons, if_pos rfl]
        have hv : pfold v (v :: keyFilter rest (voteKey v)) = pfold v (keyFilter rest (voteKey v)) := by
          rw [pfold_cons, pstep_self]
        have hidem := pfold_idem (v :: keyFilter rest (voteKey v)) v
        rw [hv] at hidem
        exact hidem
      · have hkey : voteKey e ∉ voteKey v :: seen := freshInserts_key_notin rest _ e h1
        have hne : voteKey e ≠ voteKey v := fun hc => hkey (by rw [hc]; exact List.mem_cons_self _ _)
        rw [keyFilter_cons, if_neg (fun hc => hne hc.symm)]
        exact ih _ e h1

theorem canonVotes_uniqIds (V W : List Vote) (hIV : UniqIds V) (hIW : UniqIds W)
    (hdisj : ∀ w ∈ W, ∀ e ∈ V, w.id ≠ e.id) : UniqIds (canonVotes V W) := by
  unfold canonVotes UniqIds
  rw [List.pairwise_append]
  refine ⟨?_, ?_, ?_⟩
  · rw [List.pairwise_map]
    unfold UniqIds at hIV
    refine hIV.imp ?_
    intro a b hab
    rw [pfold_id_eq, pfold_id_eq]
    exact hab
  · have hsub := freshInserts_ids_sublist W (V.map voteKey)
    unfold UniqIds at hIW
    have hw : (W.map Vote.id).Pairwise (fun a b => a ≠ b) := (List.pairwise_map).mpr hIW
    have hres := hw.sublist hsub
    exact (List.pairwise_map).mp hres
  · intro a ha b hb
    rcases List.mem_map.mp ha with ⟨x, hx, hEq⟩
    obtain ⟨w, hw, hkeq, hideq⟩ := freshInserts_from W _ b hb
    rw [← hEq, pfold_id_eq, hideq]
    exact Ne.symm (hdisj w hw x hx)

theorem canonVotes_uniqKeys (V W : List Vote) (hKV : UniqKeys V) : UniqKeys (canonVotes V W) := by
  unfold canonVotes UniqKeys
  rw [List.pairwise_append]
  refine ⟨?_, freshInserts_keys_uniq W _, ?_⟩
  · rw [List.pairwise_map]
    unfold UniqKeys at hKV
    refine hKV.imp ?_
    intro a b hab
    rw [pfold_key, pfold_key]
    exact hab
  · intro a ha b hb
    rcases List.mem_map.mp ha with ⟨x, hx, hEq⟩
    have hnot := freshInserts_key_notin W _ b hb
    intro hc
    apply hnot
    rw [← hc, ← hEq, pfold_key]
    exact List.mem_map_of_mem voteKey hx

theorem canonVotes_covers (V W : List Vote) :
    ∀ w ∈ W, ∃ e ∈ canonVotes V W, voteKey e = voteKey w := by
  intro w hw
  unfold canonVotes
  by_cases h : ∃ x ∈ V, voteKey x = voteKey w
  · obtain ⟨x, hx, hk⟩ := h
    refine ⟨pfold x (keyFilter W (voteKey x)),
      List.mem_append.mpr (Or.inl (List.mem_map_of_mem _ hx)), ?_⟩
    rw [pfold_key]
    exact hk
  · push_neg at h
    have hnot : voteKey w ∉ V.map voteKey := by
      intro hc
      rcases List.mem_map.mp hc with ⟨x, hx, hk⟩
      exact h x hx hk
    obtain ⟨e, he, hk⟩ := freshInserts_covers W (V.map voteKey) w hw hnot
    exact ⟨e, List.mem_append.mpr (Or.inr he), hk⟩

/-- Idempotence of the vote-merge loop under the table invariants and a
batch of fresh, pairwise-distinct vote ids. -/
theorem applyVotes_idem (V W : List Vote)
    (hIV : UniqIds V) (hKV : UniqKeys V) (hIW : UniqIds W)
    (hdisj : ∀ w ∈ W, ∀ e ∈ V, w.id ≠ e.id) :
    W.foldl applyVote (W.foldl applyVote V) = W.foldl applyVote V := by
  rw [applyVotes_canon W V hIV hKV hIW hdisj]
  rw [applyVotes_all_matched W _ (canonVotes_uniqKeys V W hKV)
    (canonVotes_uniqIds V W hIV hIW hdisj) (canonVotes_covers V W)]
  apply map_unchanged
  intro e he
  unfold canonVotes at he
  rcases List.mem_append.mp he with h | h
  · rcases List.mem_map.mp h with ⟨x, hx, hEq⟩
    rw [← hEq, pfold_key]
    exact pfold_idem _ x
  · exact freshInserts_fix W _ e h

theorem mem_ids_putByKey_self {α : Type} (getId : α → String) (t : List α) (x : α) :
    getId x ∈ (putByKey getId t x).map getId := by
  unfold putByKey
  by_cases h : (t.any fun e => decide (getId e = getId x)) = true
  · rw [if_pos h]
    rcases List.any_eq_true.mp h with ⟨e, he, hc⟩
    simp only [decide_eq_true_eq] at hc
    exact List.mem_map_of_mem getId (List.mem_map.mpr ⟨e, he, by rw [if_pos hc]⟩)
  · rw [if_neg h]
    simp

theorem mem_ids_putByKey_mono {α : Type} (getId : α → String) (t : List α) (x : α) (y : String)
    (hy : y ∈ t.map getId) : y ∈ (putByKey getId t x).map getId := by
  unfold putByKey
  by_cases h : (t.any fun e => decide (getId e = getId x)) = true
  · rw [if_pos h]
    rcases List.mem_map.mp hy with ⟨e, he, hEq⟩
    by_cases hc : getId e = getId x
    · exact List.mem_map.mpr ⟨x, List.mem_map.mpr ⟨e, he, by rw [if_pos hc]⟩, by rw [← hEq, hc]⟩
    · exact List.mem_map.mpr ⟨e, List.mem_map.mpr ⟨e, he, by rw [if_neg hc]⟩, hEq⟩
  · rw [if_neg h]
    simp only [List.map_append, List.mem_append]
    exact Or.inl hy

theorem mem_ids_foldl_putByKey {α : Type} (getId : α → String) : ∀ (L t : List α),
    (∀ y ∈ t.map getId, y ∈ (L.foldl (putByKey getId) t).map getId) ∧
    (∀ x ∈ L, getId x ∈ (L.foldl (putByKey getId) t).map getId) := by
  intro L
  induction L with
  | nil => exact fun t => ⟨fun y hy => hy, fun x hx => absurd hx (List.not_mem_nil x)⟩
  | cons a L ih =>
    intro t
    rw [List.foldl_cons]
    constructor
    · intro y hy
      exact (ih (putByKey getId t a)).1 y (mem_ids_putByKey_mono getId t a y hy)
    · intro x hx
      rcases List.mem_cons.mp hx with h | h
      · subst h
        exact (ih _).1 _ (mem_ids_putByKey_self getId t x)
      · exact (ih _).2 x h

theorem contains_eq_true_of_mem {l : List String} {a : String} (h : a ∈ l) :
    l.contains a = true := by
  simpa [List.contains] using List.elem_eq_true_of_mem h

theorem mem_of_contains_eq_true {l : List String} {a : String} (h : l.contains a = true) :
    a ∈ l := by
  have he : l.elem a = true := by simpa [List.contains] using h
  exact List.mem_of_elem_eq_true he

theorem bulkInsertNew_of_all_present {α : Type} (getId : α → String) (tbl batch : List α)
    (h : ∀ x ∈ batch, getId x ∈ tbl.map getId) : bulkInsertNew getId tbl batch = tbl := by
  simp only [bulkInsertNew]
  have hfilter : batch.filter (fun x => !((tbl.map getId).contains (getId x))) = [] := by
    rw [List.filter_eq_nil_iff]
    intro x hx
    rw [contains_eq_true_of_mem (h x hx)]
    simp
  rw [hfilter]
  simp

theorem bulkInsertNew_present {α : Type} (getId : α → String) (tbl batch : List α) :
    ∀ x ∈ batch, getId x ∈ (bulkInsertNew getId tbl batch).map getId := by
  intro x hx
  simp only [bulkInsertNew]
  by_cases hlen : 0 < (batch.filter (fun x => !((tbl.map getId).contains (getId x)))).length
  · rw [if_pos hlen]
    by_cases hc : (tbl.map getId).contains (getId x) = true
    · have hmem : getId x ∈ tbl.map getId := mem_of_contains_eq_true hc
      exact (mem_ids_foldl_putByKey getId _ tbl).1 _ hmem
    · have hxf : x ∈ batch.filter (fun x => !((tbl.map getId).contains (getId x))) :=
        List.mem_filter.mpr ⟨hx, by simp only [Bool.not_eq_true] at hc; rw [hc]; rfl⟩
      exact (mem_ids_foldl_putByKey getId _ tbl).2 x hxf
  · rw [if_neg hlen]
    have hempty : batch.filter (fun x => !((tbl.map getId).contains (getId x))) = [] :=
      List.length_eq_zero.mp (Nat.eq_zero_of_not_pos hlen)
    have h3 := List.filter_eq_nil_iff.mp hempty x hx
    have hc2 : (tbl.map getId).contains (getId x) = true := by simpa using h3
    exact mem_of_contains_eq_true hc2

theorem bulkInsertNew_idem {α : Type} (getId : α → String) (tbl batch : List α) :
    bulkInsertNew getId (bulkInsertNew getId tbl batch) batch = bulkInsertNew getId tbl batch :=
  bulkInsertNew_of_all_present getId _ batch (bulkInsertNew_present getId tbl batch)

/-- One-step idempotence of `mergeData` under the table invariants and a
payload of fresh, pairwise-distinct vote ids. -/
theorem mergeData_idem (vf : String → String → String → Bool) (ap : String → Option String)
    (s : Store) (d : SyncData)
    (h1 : UniqIds s.votes) (h2 : UniqKeys s.votes) (h3 : UniqIds d.votes)
    (h4 : ∀ v ∈ d.votes, ∀ e ∈ s.votes, v.id ≠ e.id) :
    mergeData vf ap (mergeData vf ap s d) d = mergeData vf ap s d := by
  have hIW : UniqIds (d.votes.filter (verifyVoteSignature vf ap)) := by
    unfold UniqIds at h3 ⊢
    exact h3.filter _
  have hdisjW : ∀ v ∈ d.votes.filter (verifyVoteSignature vf ap), ∀ e ∈ s.votes, v.id ≠ e.id :=
    fun v hv => h4 v (List.mem_of_mem_filter hv)
  unfold mergeData verifySyncSignatures
  dsimp only
  simp only [Store.mk.injEq]
  refine ⟨?_, ?_, ?_, ?_, ?_⟩
  · exact bulkInsertNew_idem Community.id s.communities _
  · exact bulkInsertNew_idem Post.id s.posts _
  · exact bulkInsertNew_idem Comment.id s.comments _
  · exact applyVotes_idem s.votes _ h1 h2 hIW hdisjW
  · exact bulkInsertNew_idem Tip.id s.tips _

/-- Claim C2 (amended): applying the same `SYNC_RESPONSE` payload N ≥ 1
times yields the same store contents as applying it once, provided the
stored votes satisfy the table invariants (pairwise-distinct primary ids and
at most one vote per `(targetId, voter)` key) and the payload's votes carry
pairwise-distinct ids that do not collide with stored vote ids.  Without the
id-freshness proviso the property fails (see the counterexample). -/
theorem merge_idempotent_for_fresh_vote_ids (vf : String → String → String → Bool)
    (ap : String → Option String) (s : Store) (d : SyncData)
    (h1 : s.votes.Pairwise (fun a b => a.id ≠ b.id))
    (h2 : s.votes.Pairwise (fun a b => voteKey a ≠ voteKey b))
    (h3 : d.votes.Pairwise (fun a b => a.id ≠ b.id))
    (h4 : ∀ v ∈ d.votes, ∀ e ∈ s.votes, v.id ≠ e.id) :
    ∀ n : Nat, mergeN vf ap d (n + 1) s = mergeData vf ap s d := by
  have key : ∀ n, mergeN vf ap d n (mergeData vf ap s d) = mergeData vf ap s d := by
    intro n
    induction n with
    | zero => rfl
    | succ m ihm =>
      show mergeN vf ap d m (mergeData vf ap (mergeData vf ap s d) d) = _
      rw [mergeData_idem vf ap s d h1 h2 h3 h4]
      exact ihm
  intro n
  show mergeN vf ap d n (mergeData vf ap s d) = _
  exact key n

/-- Witness for C2 at a one-vote payload applied twice to the empty store. -/
theorem merge_idempotent_for_fresh_vote_ids_witness :
    mergeN vfFalse apNone okSync 2 emptyStore = mergeData vfFalse apNone emptyStore okSync :=
  merge_idempotent_for_fresh_vote_ids vfFalse apNone emptyStore okSync
    (by decide) (by decide) (by decide) (by decide) 1

end MoltyNano
